import Mathlib

/-!
Verification of the LSP-client core of lsp-mcp-improved.

The definitions below are a shallow embedding of the TypeScript source:
the LSPClient class of index.ts (framing, request correlation, document
sessions, diagnostics cache and subscription bus, restart), and the
stabilization-wait state machine of src/shared/waitForDiagnostics.ts.
JavaScript values carried by messages are modelled by a small JSON value
type with JavaScript truthiness; the Map/Set fields of the client are
modelled by insertion-ordered association lists with JS Map semantics.
Promise identities are modelled by ghost tokens drawn from a counter that
only grows, so that settling a promise is an observable event.
-/

/-- JSON values as produced by JSON.parse, used for message payloads. -/
inductive Json where
  | null : Json
  | bool (b : Bool) : Json
  | num (n : Int) : Json
  | str (s : String) : Json
  | arr (elems : List Json) : Json
  | obj (fields : List (String × Json)) : Json

mutual

/-- Structural Boolean equality of JSON values. -/
def Json.beq : Json → Json → Bool
  | .null, .null => true
  | .bool a, .bool b => a == b
  | .num a, .num b => a == b
  | .str a, .str b => a == b
  | .arr xs, .arr ys => Json.beqList xs ys
  | .obj fs, .obj gs => Json.beqFields fs gs
  | _, _ => false

/-- Boolean equality of JSON arrays. -/
def Json.beqList : List Json → List Json → Bool
  | [], [] => true
  | x :: xs, y :: ys => Json.beq x y && Json.beqList xs ys
  | _, _ => false

/-- Boolean equality of JSON object field lists. -/
def Json.beqFields : List (String × Json) → List (String × Json) → Bool
  | [], [] => true
  | (k1, v1) :: fs, (k2, v2) :: gs => (k1 == k2) && Json.beq v1 v2 && Json.beqFields fs gs
  | _, _ => false

end

mutual

theorem Json.beq_iff : ∀ (a b : Json), Json.beq a b = true ↔ a = b
  | .null, .null => by simp [Json.beq]
  | .null, .bool _ => by simp [Json.beq]
  | .null, .num _ => by simp [Json.beq]
  | .null, .str _ => by simp [Json.beq]
  | .null, .arr _ => by simp [Json.beq]
  | .null, .obj _ => by simp [Json.beq]
  | .bool _, .null => by simp [Json.beq]
  | .bool a, .bool b => by simp [Json.beq]
  | .bool _, .num _ => by simp [Json.beq]
  | .bool _, .str _ => by simp [Json.beq]
  | .bool _, .arr _ => by simp [Json.beq]
  | .bool _, .obj _ => by simp [Json.beq]
  | .num _, .null => by simp [Json.beq]
  | .num _, .bool _ => by simp [Json.beq]
  | .num a, .num b => by simp [Json.beq]
  | .num _, .str _ => by simp [Json.beq]
  | .num _, .arr _ => by simp [Json.beq]
  | .num _, .obj _ => by simp [Json.beq]
  | .str _, .null => by simp [Json.beq]
  | .str _, .bool _ => by simp [Json.beq]
  | .str _, .num _ => by simp [Json.beq]
  | .str a, .str b => by simp [Json.beq]
  | .str _, .arr _ => by simp [Json.beq]
  | .str _, .obj _ => by simp [Json.beq]
  | .arr _, .null => by simp [Json.beq]
  | .arr _, .bool _ => by simp [Json.beq]
  | .arr _, .num _ => by simp [Json.beq]
  | .arr _, .str _ => by simp [Json.beq]
  | .arr xs, .arr ys => by simp [Json.beq, Json.beqList_iff xs ys]
  | .arr _, .obj _ => by simp [Json.beq]
  | .obj _, .null => by simp [Json.beq]
  | .obj _, .bool _ => by simp [Json.beq]
  | .obj _, .num _ => by simp [Json.beq]
  | .obj _, .str _ => by simp [Json.beq]
  | .obj _, .arr _ => by simp [Json.beq]
  | .obj fs, .obj gs => by simp [Json.beq, Json.beqFields_iff fs gs]

theorem Json.beqList_iff : ∀ (xs ys : List Json), Json.beqList xs ys = true ↔ xs = ys
  | [], [] => by simp [Json.beqList]
  | [], _ :: _ => by simp [Json.beqList]
  | _ :: _, [] => by simp [Json.beqList]
  | x :: xs, y :: ys => by
    simp [Json.beqList, Json.beq_iff x y, Json.beqList_iff xs ys]

theorem Json.beqFields_iff : ∀ (fs gs : List (String × Json)),
    Json.beqFields fs gs = true ↔ fs = gs
  | [], [] => by simp [Json.beqFields]
  | [], _ :: _ => by simp [Json.beqFields]
  | _ :: _, [] => by simp [Json.beqFields]
  | (k1, v1) :: fs, (k2, v2) :: gs => by
    simp [Json.beqFields, Json.beq_iff v1 v2, Json.beqFields_iff fs gs, and_assoc]

end

instance : DecidableEq Json := fun a b =>
  if h : Json.beq a b = true then isTrue ((Json.beq_iff a b).mp h)
  else isFalse (fun he => h ((Json.beq_iff a b).mpr he))


/-- Lookup in an insertion-ordered association list, as JS Map.get. -/
def jsGet {κ α : Type} [DecidableEq κ] : List (κ × α) → κ → Option α
  | [], _ => none
  | (k1, v1) :: rest, k => if k1 = k then some v1 else jsGet rest k

/-- JS Map.set: replace the value in place if the key exists, else append. -/
def jsSet {κ α : Type} [DecidableEq κ] : List (κ × α) → κ → α → List (κ × α)
  | [], k, v => [(k, v)]
  | (k1, v1) :: rest, k, v => if k1 = k then (k, v) :: rest else (k1, v1) :: jsSet rest k v

/-- JS Map.delete: remove the (first) entry with the given key. -/
def jsDelete {κ α : Type} [DecidableEq κ] : List (κ × α) → κ → List (κ × α)
  | [], _ => []
  | (k1, v1) :: rest, k => if k1 = k then rest else (k1, v1) :: jsDelete rest k

/-- JavaScript truthiness of a JSON value. -/
def truthy : Json → Bool
  | Json.null => false
  | Json.bool b => b
  | Json.num n => n != 0
  | Json.str s => s != ""
  | Json.arr _ => true
  | Json.obj _ => true

/-- Property access on a JSON value: undefined on non-objects. -/
def getField : Json → String → Option Json
  | Json.obj fs, k => jsGet fs k
  | _, _ => none

/-- Optional-chained property access, as in JS v?.k (undefined stays undefined). -/
def jsonField? (v : Option Json) (k : String) : Option Json :=
  v.bind (fun j => getField j k)

/-- Truthiness of a possibly-undefined value: undefined is falsy. -/
def truthyO : Option Json → Bool
  | none => false
  | some v => truthy v

/-- An LSP JSON-RPC message as the LSPMessage interface of index.ts.
An absent optional field is modelled by none. -/
structure LSPMessage where
  jsonrpc : String
  id : Option Json
  method : Option String
  params : Option Json
  result : Option Json
  error : Option Json
  deriving DecidableEq

/-- One in-flight request record in the responsePromises map. The token is
the ghost identity of the promise returned to the caller. -/
structure PendingEntry where
  token : Nat
  method : String
  deriving DecidableEq

/-- How a promise settles: with a result, with a server-reported JSON-RPC
error object, or with a thrown Error carrying a message string. -/
inductive Outcome where
  | resolved (result : Option Json)
  | rejectedErr (e : Json)
  | rejectedMsg (m : String)
  deriving DecidableEq

/-- Observable effects of the client: settling a caller's promise, writing a
framed message to the subprocess, invoking a diagnostics subscriber, and
arming a request-timeout timer. -/
inductive Event where
  | settle (tok : Nat) (o : Outcome)
  | send (msg : LSPMessage)
  | notify (sub : Nat) (uri : Json) (diags : List Json)
  | armTimer (tok : Nat) (delayMs : Nat)
  deriving DecidableEq

/-- The mutable state of the LSPClient class (index.ts 1649-1663).
processStarted models whether this.process is set; tokenGen is the ghost
counter of promise identities and is never reset. -/
structure ClientState where
  buffer : List Char
  messageQueue : List LSPMessage
  nextId : Nat
  responsePromises : List (Json × PendingEntry)
  initialized : Bool
  serverCapabilities : Option Json
  openedDocuments : List String
  documentVersions : List (String × Nat)
  processingQueue : Bool
  documentDiagnostics : List (Json × List Json)
  diagnosticSubscribers : List Nat
  processStarted : Bool
  tokenGen : Nat
  deriving DecidableEq

/-- The state of a freshly constructed client. -/
def initialClientState : ClientState :=
  { buffer := [], messageQueue := [], nextId := 1, responsePromises := [],
    initialized := false, serverCapabilities := none, openedDocuments := [],
    documentVersions := [], processingQueue := false, documentDiagnostics := [],
    diagnosticSubscribers := [], processStarted := false, tokenGen := 0 }

/-- A diagnostics-subscriber behaviour: whether a given subscriber throws
when invoked with a given uri and diagnostics list. -/
def CallbackBehaviour : Type := Nat → Json → List Json → Bool

/-- A behaviour where no callback ever throws. -/
def cbNever : CallbackBehaviour := fun _ _ _ => false

/-- One subscriber invocation inside the fan-out loop, which may throw. -/
def runCallback (cb : CallbackBehaviour) (s : Nat) (uri : Json) (ds : List Json) :
    Except String Unit :=
  if cb s uri ds then Except.error "subscriber callback threw" else Except.ok ()

/-- notifyDiagnosticUpdate (index.ts 2065-2074): invoke every current
subscriber in registration order; each call is wrapped in try/catch, so a
throwing callback is logged and the loop continues either way. -/
def notifyDiagnosticUpdate (cb : CallbackBehaviour) (subs : List Nat) (uri : Json)
    (ds : List Json) : List Event :=
  match subs with
  | [] => []
  | s :: rest =>
    match runCallback cb s uri ds with
    | Except.ok _ => Event.notify s uri ds :: notifyDiagnosticUpdate cb rest uri ds
    | Except.error _ => Event.notify s uri ds :: notifyDiagnosticUpdate cb rest uri ds

/-- How a response settles the pending promise (index.ts 1773-1777): a truthy
error field rejects with it, otherwise the result (possibly undefined) resolves. -/
def outcomeOfMsg (msg : LSPMessage) : Outcome :=
  match msg.error with
  | some e => if truthy e then Outcome.rejectedErr e else Outcome.resolved msg.result
  | none => Outcome.resolved msg.result

/-- The response branch of handleMessage (index.ts 1769-1780): a message with
an id and a result or error settles the matching pending request, which is
removed; an unknown id settles nothing. -/
def handleResponsePart (st : ClientState) (msg : LSPMessage) : ClientState × List Event :=
  match msg.id with
  | some mid =>
    if msg.result.isSome || msg.error.isSome then
      match jsGet st.responsePromises mid with
      | some p =>
        ({ st with responsePromises := jsDelete st.responsePromises mid },
          [Event.settle p.token (outcomeOfMsg msg)])
      | none => (st, [])
    else (st, [])
  | none => (st, [])

/-- The capabilities step of handleMessage (index.ts 1782-1785): any message
with an id whose result carries a truthy capabilities field stores it. -/
def applyCapabilities (st : ClientState) (msg : LSPMessage) : ClientState :=
  if msg.id.isSome && truthyO (jsonField? msg.result "capabilities") then
    { st with serverCapabilities := jsonField? msg.result "capabilities" }
  else st

/-- The notification branch of handleMessage (index.ts 1787-1816): a
publishDiagnostics notification with a truthy uri and an array of diagnostics
overwrites the cache entry for the uri and fans out to all subscribers. -/
def handleNotificationPart (cb : CallbackBehaviour) (st : ClientState) (msg : LSPMessage) :
    ClientState × List Event :=
  if msg.method.isSome && msg.id.isNone then
    if msg.method == some "textDocument/publishDiagnostics" && truthyO msg.params then
      match jsonField? msg.params "uri", jsonField? msg.params "diagnostics" with
      | some u, some (Json.arr ds) =>
        if truthy u then
          let st3 := { st with documentDiagnostics := jsSet st.documentDiagnostics u ds }
          (st3, notifyDiagnosticUpdate cb st3.diagnosticSubscribers u ds)
        else (st, [])
      | _, _ => (st, [])
    else (st, [])
  else (st, [])

/-- handleMessage (index.ts 1756-1817): the response branch, the capabilities
step and the notification branch, in source order. -/
def handleMessage (cb : CallbackBehaviour) (st : ClientState) (msg : LSPMessage) :
    ClientState × List Event :=
  let stev1 := handleResponsePart st msg
  let st2 := applyCapabilities stev1.1 msg
  let stev3 := handleNotificationPart cb st2 msg
  (stev3.1, stev1.2 ++ stev3.2)

/-- The per-request timeout delay of sendRequest (index.ts 1869). -/
def requestTimeoutMs : Nat := 10000

/-- The JSON-RPC request object built by sendRequest. -/
def requestMessage (i : Nat) (method : String) (params : Option Json) : LSPMessage :=
  { jsonrpc := "2.0", id := some (Json.num (Int.ofNat i)), method := some method,
    params := params, result := none, error := none }

/-- The result of a sendRequest call: the new state, the ghost identity of the
returned promise, the assigned request id (none if the process was not
started), and the emitted events. -/
structure SendResult where
  st : ClientState
  tok : Nat
  reqId : Option Nat
  events : List Event
  deriving DecidableEq

/-- sendRequest (index.ts 1838-1890): reject immediately if the process was
never started; otherwise assign id := nextId++, register a PendingRequest
with a 10s timeout timer, and write the framed request. -/
def sendRequest (st : ClientState) (method : String) (params : Option Json) : SendResult :=
  if st.processStarted = false then
    { st := { st with tokenGen := st.tokenGen + 1 }
      tok := st.tokenGen
      reqId := none
      events := [Event.settle st.tokenGen (Outcome.rejectedMsg "LSP process not started. Please call start_lsp first.")] }
  else
    let i := st.nextId
    let tok := st.tokenGen
    let pend : PendingEntry := { token := tok, method := method }
    let st1 := { st with nextId := i + 1
                         tokenGen := st.tokenGen + 1
                         responsePromises := jsSet st.responsePromises (Json.num (Int.ofNat i)) pend }
    { st := st1
      tok := tok
      reqId := some i
      events := [Event.armTimer tok requestTimeoutMs, Event.send (requestMessage i method params)] }

/-- The timeout closure registered by sendRequest (index.ts 1864-1869), firing
for the request with the captured id, promise token and method: if the id is
still pending, remove it and reject the captured promise with the timeout error. -/
def fireTimeout (st : ClientState) (i : Nat) (tok : Nat) (method : String) :
    ClientState × List Event :=
  if (jsGet st.responsePromises (Json.num (Int.ofNat i))).isSome then
    ({ st with responsePromises := jsDelete st.responsePromises (Json.num (Int.ofNat i)) },
      [Event.settle tok
        (Outcome.rejectedMsg ("Timeout waiting for response to " ++ method ++ " request"))])
  else (st, [])

/-- sendNotification (index.ts 1892-1919): logged error and no write if the
process was never started, else write the framed notification. -/
def sendNotification (st : ClientState) (method : String) (params : Option Json) :
    ClientState × List Event :=
  if st.processStarted = false then (st, [])
  else
    (st, [Event.send { jsonrpc := "2.0", id := none, method := some method, params := params, result := none, error := none }])

/-- The textDocument/didOpen params built by openDocument (index.ts 1994-2001). -/
def didOpenParams (uri languageId text : String) : Json :=
  Json.obj [("textDocument", Json.obj
    [("uri", Json.str uri), ("languageId", Json.str languageId),
     ("version", Json.num 1), ("text", Json.str text)])]

/-- The textDocument/didChange params built by openDocument (index.ts 1976-1986):
the incremented version and the full replacement text. -/
def didChangeParams (uri : String) (version : Nat) (text : String) : Json :=
  Json.obj [("textDocument", Json.obj
    [("uri", Json.str uri), ("version", Json.num (Int.ofNat version))]),
    ("contentChanges", Json.arr [Json.obj [("text", Json.str text)]])]

/-- JS x || 1 applied to an optional version number (index.ts 1972). -/
def jsOrOne : Option Nat → Nat
  | some n => if n = 0 then 1 else n
  | none => 1

/-- JS Set.add on an insertion-ordered list. -/
def addElem {α : Type} [DecidableEq α] (l : List α) (a : α) : List α :=
  if a ∈ l then l else l ++ [a]

/-- openDocument (index.ts 1963-2006): throw if not initialized; if the uri is
already open, send didChange with the incremented version and full text and
store the new version; else send didOpen with version 1 and record the document. -/
def openDocument (st : ClientState) (uri text languageId : String) :
    Except String (ClientState × List Event) :=
  if st.initialized = false then
    Except.error "LSP client not initialized. Please call start_lsp first."
  else if uri ∈ st.openedDocuments then
    let currentVersion := jsOrOne (jsGet st.documentVersions uri)
    let newVersion := currentVersion + 1
    let stev := sendNotification st "textDocument/didChange"
      (some (didChangeParams uri newVersion text))
    Except.ok ({ stev.1 with documentVersions := jsSet stev.1.documentVersions uri newVersion }, stev.2)
  else
    let stev := sendNotification st "textDocument/didOpen"
      (some (didOpenParams uri languageId text))
    let st1 := { stev.1 with openedDocuments := addElem stev.1.openedDocuments uri
                             documentVersions := jsSet stev.1.documentVersions uri 1 }
    Except.ok (st1, stev.2)

/-- closeDocument (index.ts 2019-2038): throw if not initialized; if open, send
didClose and remove the uri from tracking, else a logged no-op. -/
def closeDocument (st : ClientState) (uri : String) :
    Except String (ClientState × List Event) :=
  if st.initialized = false then
    Except.error "LSP client not initialized. Please call start_lsp first."
  else if uri ∈ st.openedDocuments then
    let stev := sendNotification st "textDocument/didClose"
      (some (Json.obj [("textDocument", Json.obj [("uri", Json.str uri)])]))
    let st1 := { stev.1 with openedDocuments := stev.1.openedDocuments.erase uri
                             documentVersions := jsDelete stev.1.documentVersions uri }
    Except.ok (st1, stev.2)
  else
    Except.ok (st, [])

/-- getDiagnostics (index.ts 2040-2043): the cached entry or an empty list. -/
def getDiagnostics (st : ClientState) (uri : String) : List Json :=
  (jsGet st.documentDiagnostics (Json.str uri)).getD []

/-- getAllDiagnostics (index.ts 2045-2048): a snapshot copy of the cache. -/
def getAllDiagnostics (st : ClientState) : List (Json × List Json) :=
  st.documentDiagnostics

/-- The replay loop of subscribeToDiagnostics (index.ts 2054-2057): one direct
callback invocation per cached entry, with no try/catch, so a throw aborts the
loop and propagates (signalled by the Option String). -/
def replayLoop (cb : CallbackBehaviour) (tok : Nat) :
    List (Json × List Json) → List Event × Option String
  | [] => ([], none)
  | (u, ds) :: rest =>
    match runCallback cb tok u ds with
    | Except.ok _ =>
      let r := replayLoop cb tok rest
      (Event.notify tok u ds :: r.1, r.2)
    | Except.error e => ([Event.notify tok u ds], some e)

/-- subscribeToDiagnostics (index.ts 2050-2058): register the callback, then
synchronously replay the current cache contents to it, one call per entry. -/
def subscribeToDiagnostics (cb : CallbackBehaviour) (st : ClientState) (tok : Nat) :
    ClientState × List Event × Option String :=
  let st1 := { st with diagnosticSubscribers := addElem st.diagnosticSubscribers tok }
  let r := replayLoop cb tok st.documentDiagnostics
  (st1, r.1, r.2)

/-- unsubscribeFromDiagnostics (index.ts 2061-2063). -/
def unsubscribeFromDiagnostics (st : ClientState) (tok : Nat) : ClientState :=
  { st with diagnosticSubscribers := st.diagnosticSubscribers.erase tok }

/-- clearDiagnosticSubscribers (index.ts 2077-2079). -/
def clearDiagnosticSubscribers (st : ClientState) : ClientState :=
  { st with diagnosticSubscribers := [] }

/-- The index of the last occurrence of a character, as JS String.lastIndexOf
restricted to a single-character needle. -/
def lastIdxOf (c : Char) : List Char → Option Nat
  | [] => none
  | a :: rest =>
    match lastIdxOf c rest with
    | some i => some (i + 1)
    | none => if a = c then some 0 else none

/-- parseInt applied to a nonempty digit string. -/
def natOfDigits (ds : List Char) : Nat :=
  ds.foldl (fun n c => n * 10 + (c.toNat - 48)) 0

/-- The literal header the framing regex requires. -/
def headerLit : List Char := "Content-Length: ".toList

/-- The blank line terminating the header. -/
def crlfcrlf : List Char := ['\r', '\n', '\r', '\n']

/-- The anchored header match of handleData (index.ts 1696-1700): the literal
Content-Length prefix, one or more digits, then CRLFCRLF. Returns the declared
content length and the header length. -/
def parseHeader (buf : List Char) : Option (Nat × Nat) :=
  if buf.take 16 = headerLit then
    let rest := buf.drop 16
    let ds := rest.takeWhile (fun c => c.isDigit)
    if ds.isEmpty then none
    else if (rest.drop ds.length).take 4 = crlfcrlf then
      some (natOfDigits ds, 16 + ds.length + 4)
    else none
  else none

/-- One message extraction of the handleData loop (index.ts 1694-1726): none
when the header is absent or fewer than contentLength payload chars are
buffered; otherwise the extracted message content and the remaining buffer,
with the trailing-brace robustness adjustment. -/
def handleDataExtract (buf : List Char) : Option (List Char × List Char) :=
  match parseHeader buf with
  | none => none
  | some (contentLength, headerEnd) =>
    if buf.length < headerEnd + contentLength then none
    else
      let content := (buf.drop headerEnd).take contentLength
      if content.get? (content.length - 1) = some '}' then
        some (content, buf.drop (headerEnd + contentLength))
      else
        match lastIdxOf '}' content with
        | some lastBraceIndex =>
          let actualContentLength := lastBraceIndex + 1
          some (content.take actualContentLength, buf.drop (headerEnd + actualContentLength))
        | none => some (content, buf.drop (headerEnd + contentLength))

/-- The params object sent by the initialize request (index.ts 1931-1952),
taking the host process id and the already-resolved root directory. -/
def initializeParams (pid : Int) (resolvedRoot : String) : Json :=
  Json.obj [("processId", Json.num pid),
    ("clientInfo", Json.obj [("name", Json.str "lsp-mcp-server")]),
    ("rootUri", Json.str ("file://" ++ resolvedRoot)),
    ("capabilities", Json.obj [("textDocument", Json.obj
      [("hover", Json.obj [("contentFormat", Json.arr [Json.str "markdown", Json.str "plaintext"])]),
       ("completion", Json.obj [("completionItem", Json.obj [("snippetSupport", Json.bool false)])]),
       ("codeAction", Json.obj [("dynamicRegistration", Json.bool true)])])])]

/-- Whether an event list settles the given promise token by resolving it. -/
def settlesResolvedTok (tok : Nat) : List Event → Bool
  | [] => false
  | Event.settle t (Outcome.resolved _) :: rest =>
    if t = tok then true else settlesResolvedTok tok rest
  | _ :: rest => settlesResolvedTok tok rest

/-- The initialize method (index.ts 1921-1961) in the schedule where the
response resp to the initialize request is the next message processed: no-op
if already initialized; else ensure the process is started, send the
initialize request, process resp; when resp resolves that request, send the
initialized notification and mark the session initialized (a rejection or an
unrelated response leaves the session not initialized, as the thrown error
propagates). -/
def initializeRun (cb : CallbackBehaviour) (pid : Int) (st : ClientState)
    (resolvedRoot : String) (resp : LSPMessage) : ClientState × List Event :=
  if st.initialized then (st, [])
  else
    let st0 := if st.processStarted then st else { st with processStarted := true }
    let r := sendRequest st0 "initialize" (some (initializeParams pid resolvedRoot))
    let stev := handleMessage cb r.st resp
    if settlesResolvedTok r.tok stev.2 then
      let stev2 := sendNotification stev.1 "initialized" (some (Json.obj []))
      ({ stev2.1 with initialized := true }, r.events ++ stev.2 ++ stev2.2)
    else (stev.1, r.events ++ stev.2)

/-- The reset block of restart (index.ts 2219-2230): every piece of session
state back to its initial value. The ghost token counter survives, since the
promise objects abandoned in the discarded map keep their identity. -/
def resetSessionState (st : ClientState) : ClientState :=
  { st with buffer := []
            messageQueue := []
            nextId := 1
            responsePromises := []
            initialized := false
            serverCapabilities := none
            openedDocuments := []
            documentVersions := []
            processingQueue := false
            documentDiagnostics := []
            diagnosticSubscribers := [] }

/-- restart() with no root directory, called on a not-initialized client (the
shutdown branch at index.ts 2201 is skipped; the kill at 2210 has no state
effect): the reset block followed by startProcess. -/
def restartNoRoot (st : ClientState) : ClientState :=
  { resetSessionState st with processStarted := true }

/-- restart(rootDirectory) on a not-initialized client, in the schedule where
resp is the response to the new initialize request (index.ts 2197-2242). -/
def restartWithRoot (cb : CallbackBehaviour) (pid : Int) (st : ClientState)
    (resolvedRoot : String) (resp : LSPMessage) : ClientState × List Event :=
  initializeRun cb pid (restartNoRoot st) resolvedRoot resp

mutual

/-- JS String() coercion of a JSON value, as used when Array.join stringifies
non-string elements. -/
def jsStringOfJson : Json → String
  | Json.null => "null"
  | Json.bool b => if b then "true" else "false"
  | Json.num n => toString n
  | Json.str s => s
  | Json.arr xs => jsStringOfArr xs
  | Json.obj _ => "[object Object]"

/-- JS Array toString: elements joined by commas. -/
def jsStringOfArr : List Json → String
  | [] => ""
  | [x] => jsStringOfJson x
  | x :: y :: rest => jsStringOfJson x ++ "," ++ jsStringOfArr (y :: rest)

end

/-- One element of the hover contents array (index.ts 2102-2104):
the item if it is a string, else item.value || "". -/
def hoverItemText (item : Json) : String :=
  match item with
  | Json.str s => s
  | _ =>
    match getField item "value" with
    | some v => if truthy v then jsStringOfJson v else ""
    | none => ""

/-- The value returned by getInfoOnLocation for a resolved hover response
(index.ts 2096-2111): contents if a string, else contents.value if truthy,
else the newline-join of a contents array, else the empty string. -/
def hoverContentsValue (response : Option Json) : Json :=
  match jsonField? response "contents" with
  | some contents =>
    if truthy contents then
      match contents with
      | Json.str s => Json.str s
      | _ =>
        if truthyO (getField contents "value") then (getField contents "value").getD Json.null
        else
          match contents with
          | Json.arr items => Json.str (String.intercalate "\n" (items.map hoverItemText))
          | _ => Json.str ""
    else Json.str ""
  | none => Json.str ""

/-- The error thrown by operations on a not-initialized session. -/
def notInitializedError : String := "LSP client not initialized. Please call start_lsp first."

/-- getInfoOnLocation (index.ts 2081-2112), as a function of whether the
session is initialized and of how the awaited hover request settles: a
rejection (server error or timeout) is caught, logged as a warning and
swallowed, and the operation resolves with the empty string. -/
def getInfoOnLocation (initialized : Bool) (outcome : Outcome) : Except String Json :=
  if initialized = false then Except.error notInitializedError
  else
    match outcome with
    | Outcome.resolved r => Except.ok (hoverContentsValue r)
    | Outcome.rejectedErr _ => Except.ok (Json.str "")
    | Outcome.rejectedMsg _ => Except.ok (Json.str "")

/-- The items extracted from a resolved completion response (index.ts 2128-2132). -/
def completionItemsOf (response : Option Json) : List Json :=
  match response with
  | some (Json.arr xs) => xs
  | _ =>
    match jsonField? response "items" with
    | some (Json.arr xs) => xs
    | _ => []

/-- getCompletion (index.ts 2114-2138): a rejection is caught and the
operation resolves with the empty list. -/
def getCompletion (initialized : Bool) (outcome : Outcome) : Except String (List Json) :=
  if initialized = false then Except.error notInitializedError
  else
    match outcome with
    | Outcome.resolved r => Except.ok (completionItemsOf r)
    | Outcome.rejectedErr _ => Except.ok []
    | Outcome.rejectedMsg _ => Except.ok []

/-- The actions extracted from a resolved codeAction response (index.ts 2157-2159). -/
def codeActionsOf (response : Option Json) : List Json :=
  match response with
  | some (Json.arr xs) => xs
  | _ => []

/-- getCodeActions (index.ts 2140-2165): a rejection is caught and the
operation resolves with the empty list. -/
def getCodeActions (initialized : Bool) (outcome : Outcome) : Except String (List Json) :=
  if initialized = false then Except.error notInitializedError
  else
    match outcome with
    | Outcome.resolved r => Except.ok (codeActionsOf r)
    | Outcome.rejectedErr _ => Except.ok []
    | Outcome.rejectedMsg _ => Except.ok []

/-- The serialized drain loop (index.ts 1740-1754) applied to a list of
decoded messages in arrival order. -/
def processResponses (cb : CallbackBehaviour) (st : ClientState) :
    List LSPMessage → ClientState × List Event
  | [] => (st, [])
  | m :: rest =>
    let stev := handleMessage cb st m
    let r := processResponses cb stev.1 rest
    (r.1, stev.2 ++ r.2)

/-- The settlement outcomes an event list delivers to a given promise token. -/
def settlesOf : List Event → Nat → List Outcome
  | [], _ => []
  | Event.settle t o :: rest, tok =>
    if t = tok then o :: settlesOf rest tok else settlesOf rest tok
  | Event.send _ :: rest, tok => settlesOf rest tok
  | Event.notify _ _ _ :: rest, tok => settlesOf rest tok
  | Event.armTimer _ _ :: rest, tok => settlesOf rest tok

/-- Well-formedness of the client state: pending keys are distinct (ids are
assigned from a counter and removed at most once), pending promise tokens are
distinct, and every pending token was drawn from the ghost counter. -/
def WF (st : ClientState) : Prop :=
  (st.responsePromises.map Prod.fst).Nodup ∧
  (st.responsePromises.map (fun p => p.2.token)).Nodup ∧
  (∀ p ∈ st.responsePromises, p.2.token < st.tokenGen)

/-- The session operations that can run after a restart, used to express that
no later activity can settle an abandoned promise. -/
inductive SessionAct where
  | recv (m : LSPMessage)
  | request (method : String) (params : Option Json)
  | notif (method : String) (params : Option Json)
  | openDoc (uri text languageId : String)
  | closeDoc (uri : String)
  | subscribeAct (tok : Nat)
  | unsubscribeAct (tok : Nat)
  | fireTO (i : Nat) (tok : Nat) (method : String)

/-- The state transition and events of one session operation. -/
def applyAction (cb : CallbackBehaviour) (st : ClientState) : SessionAct → ClientState × List Event
  | SessionAct.recv m => handleMessage cb st m
  | SessionAct.request method params =>
    let r := sendRequest st method params
    (r.st, r.events)
  | SessionAct.notif method params => sendNotification st method params
  | SessionAct.openDoc uri text languageId =>
    match openDocument st uri text languageId with
    | Except.ok r => r
    | Except.error _ => (st, [])
  | SessionAct.closeDoc uri =>
    match closeDocument st uri with
    | Except.ok r => r
    | Except.error _ => (st, [])
  | SessionAct.subscribeAct tok =>
    let r := subscribeToDiagnostics cb st tok
    (r.1, r.2.1)
  | SessionAct.unsubscribeAct tok => (unsubscribeFromDiagnostics st tok, [])
  | SessionAct.fireTO i tok method => fireTimeout st i tok method

/-- Run a list of session operations, concatenating their events. -/
def runActions (cb : CallbackBehaviour) (st : ClientState) : List SessionAct → ClientState × List Event
  | [] => (st, [])
  | a :: rest =>
    let stev := applyAction cb st a
    let r := runActions cb stev.1 rest
    (r.1, stev.2 ++ r.2)

/-- Whether an action is the firing of a request-timeout timer. -/
def isTimeoutAction : SessionAct → Bool
  | SessionAct.fireTO _ _ _ => true
  | _ => false

/-- STABLE_DELAY of waitForDiagnostics.ts (line 72): ms of silence that counts
as stable. -/
def stableDelay : Nat := 500

/-- The default hard timeout of waitForDiagnostics (line 70). -/
def defaultWaitTimeoutMs : Nat := 25000

/-- The inputs of one waitForDiagnostics call: the target uris, the hard
timeout, and the time at which the temporary listener was subscribed. -/
structure WaitCfg where
  targetUris : List String
  timeoutMs : Nat
  t0 : Nat
  deriving DecidableEq

/-- The bookkeeping of one waitForDiagnostics call
(waitForDiagnostics.ts 89-114): the per-file snapshot and fresh-update flags,
the last-update timestamp, and the scheduled fire time of the armed
stabilisation timer; hardCleared records clearTimeout(hardTimeout);
resolvedAt and unsubscribedAt record the effects of finish. -/
structure WaitState where
  sawInitialSnapshot : List String
  gotFreshUpdate : List String
  lastUpdateTimestamp : Nat
  stabilisationTimer : Option Nat
  hardCleared : Bool
  resolvedAt : Option Nat
  unsubscribedAt : Option Nat
  deriving DecidableEq

/-- The state right after setup (lines 89-114 and 144-152): no snapshot or
fresh update seen, lastUpdateTimestamp = now, the stabilisation timer armed
once for t0 + STABLE_DELAY, the hard timer pending. -/
def initWaitState (cfg : WaitCfg) : WaitState :=
  { sawInitialSnapshot := [], gotFreshUpdate := [], lastUpdateTimestamp := cfg.t0,
    stabilisationTimer := some (cfg.t0 + stableDelay), hardCleared := false,
    resolvedAt := none, unsubscribedAt := none }

/-- allFilesHaveFreshUpdate (lines 97-98). -/
def allFilesHaveFreshUpdate (cfg : WaitCfg) (st : WaitState) : Bool :=
  cfg.targetUris.all (fun u => st.gotFreshUpdate.contains u)

/-- finish (lines 81-87): unsubscribe the listener, clear both timers,
resolve. -/
def finishWait (t : Nat) (st : WaitState) : WaitState :=
  { st with resolvedAt := some t
            unsubscribedAt := some t
            stabilisationTimer := none
            hardCleared := true }

/-- diagnosticListener (lines 117-142) invoked at time t for a published uri:
non-target uris are ignored; the first callback for a target uri is counted as
the initial snapshot and otherwise ignored; later callbacks mark the uri
fresh, stamp the time and re-arm the stabilisation timer. -/
def diagnosticListener (cfg : WaitCfg) (st : WaitState) (t : Nat) (uri : String) : WaitState :=
  if uri ∈ cfg.targetUris then
    if uri ∈ st.sawInitialSnapshot then
      { st with gotFreshUpdate := addElem st.gotFreshUpdate uri
                lastUpdateTimestamp := t
                stabilisationTimer := some (t + stableDelay) }
    else { st with sawInitialSnapshot := addElem st.sawInitialSnapshot uri }
  else st

/-- The stabilisation-timer callback (lines 104-114) firing at time t: the
timer is consumed; when idle time reached STABLE_DELAY and every target has a
fresh update, finish. -/
def stabFireStep (cfg : WaitCfg) (st : WaitState) (t : Nat) : WaitState :=
  let st1 := { st with stabilisationTimer := none }
  let idleFor := t - st1.lastUpdateTimestamp
  if stableDelay ≤ idleFor ∧ allFilesHaveFreshUpdate cfg st1 = true then finishWait t st1
  else st1

/-- The hard-timeout callback (lines 148-152) firing at time t: a cleared
timer is a no-op, otherwise finish unconditionally. -/
def hardFireStep (st : WaitState) (t : Nat) : WaitState :=
  if st.hardCleared then st else finishWait t st

/-- The events the environment can deliver to one waitForDiagnostics call. -/
inductive WEvent where
  | cbEv (uri : String)
  | stabFire
  | hardFire
  deriving DecidableEq

/-- The state transition for one timed event. -/
def wstep (cfg : WaitCfg) (st : WaitState) (t : Nat) : WEvent → WaitState
  | WEvent.cbEv uri => diagnosticListener cfg st t uri
  | WEvent.stabFire => stabFireStep cfg st t
  | WEvent.hardFire => hardFireStep st t

/-- Which events the runtime can deliver in a given state: the listener is
only called while subscribed; the stabilisation timer fires exactly at its
scheduled time; the hard timer callback runs at t0 + timeoutMs. -/
def eventValid (cfg : WaitCfg) (st : WaitState) (t : Nat) : WEvent → Bool
  | WEvent.cbEv _ => st.unsubscribedAt.isNone
  | WEvent.stabFire => st.stabilisationTimer == some t
  | WEvent.hardFire => t == cfg.t0 + cfg.timeoutMs

/-- A trace is valid when every event is deliverable in the state it meets. -/
def wvalid (cfg : WaitCfg) (st : WaitState) : List (Nat × WEvent) → Bool
  | [] => true
  | (t, e) :: rest => eventValid cfg st t e && wvalid cfg (wstep cfg st t e) rest

/-- Run a trace of timed events. -/
def wrun (cfg : WaitCfg) (st : WaitState) : List (Nat × WEvent) → WaitState
  | [] => st
  | (t, e) :: rest => wrun cfg (wstep cfg st t e) rest

/-- Timestamps are nondecreasing along a trace, starting from a lower bound. -/
def timesMono : Nat → List (Nat × WEvent) → Bool
  | _, [] => true
  | tprev, (t, _) :: rest => decide (tprev ≤ t) && timesMono t rest

/-- The final state of one waitForDiagnostics call over a trace. -/
def wfinal (cfg : WaitCfg) (tr : List (Nat × WEvent)) : WaitState :=
  wrun cfg (initWaitState cfg) tr

/-- The number of listener invocations for a given uri in a trace. -/
def cbCount (tr : List (Nat × WEvent)) (u : String) : Nat :=
  tr.countP (fun te => te.2 == WEvent.cbEv u)

theorem lastIdxOf_none_iff (c : Char) (l : List Char) :
    lastIdxOf c l = none ↔ c ∉ l := by
  induction l with
  | nil => simp [lastIdxOf]
  | cons a rest ih =>
    rw [List.mem_cons]
    cases h : lastIdxOf c rest with
    | some i =>
      have hmem : c ∈ rest := by
        by_contra hnm
        rw [← ih] at hnm
        simp [h] at hnm
      simp [lastIdxOf, h, hmem]
    | none =>
      have hnm : c ∉ rest := ih.mp h
      by_cases hac : a = c
      · simp [lastIdxOf, h, hac]
      · simp [lastIdxOf, h, hac, hnm]
        exact fun heq => hac heq.symm

theorem lastIdxOf_some_spec (c : Char) (l : List Char) (i : Nat)
    (h : lastIdxOf c l = some i) :
    i < l.length ∧ l.get? i = some c ∧
      ∀ j, i < j → j < l.length → l.get? j ≠ some c := by
  induction l generalizing i with
  | nil => simp [lastIdxOf] at h
  | cons a rest ih =>
    rw [lastIdxOf] at h
    cases hr : lastIdxOf c rest with
    | some i0 =>
      rw [hr] at h
      injection h with h
      subst h
      obtain ⟨h1, h2, h3⟩ := ih i0 hr
      refine ⟨by simpa using Nat.succ_lt_succ h1, by simpa using h2, ?_⟩
      intro j hj1 hj2
      cases j with
      | zero => omega
      | succ j0 =>
        simp only [List.length_cons] at hj2
        have := h3 j0 (by omega) (by omega)
        simpa using this
    | none =>
      rw [hr] at h
      by_cases hac : a = c
      · rw [if_pos hac] at h
        injection h with h
        subst h
        refine ⟨by simp, by simp [hac], ?_⟩
        intro j hj1 hj2
        cases j with
        | zero => omega
        | succ j0 =>
          have hnm : c ∉ rest := (lastIdxOf_none_iff c rest).mp hr
          intro hget
          exact hnm (List.get?_mem (by simpa using hget))
      · rw [if_neg hac] at h
        cases h

theorem lastIdxOf_eq_of_spec (c : Char) (l : List Char) (i : Nat)
    (h1 : i < l.length) (h2 : l.get? i = some c)
    (h3 : ∀ j, i < j → j < l.length → l.get? j ≠ some c) :
    lastIdxOf c l = some i := by
  cases h : lastIdxOf c l with
  | none =>
    exact absurd (List.get?_mem h2) ((lastIdxOf_none_iff c l).mp h)
  | some i2 =>
    obtain ⟨g1, g2, g3⟩ := lastIdxOf_some_spec c l i2 h
    have heq : i = i2 := by
      by_contra hne
      rcases Nat.lt_or_ge i i2 with hlt | hge
      · exact h3 i2 hlt g1 g2
      · have hlt2 : i2 < i := by omega
        exact g3 i hlt2 h1 h2
    rw [heq]

/-- C2: for every buffered input starting with a Content-Length header
declaring n and holding at least n payload chars: if the payload char at
position n-1 is a closing brace, exactly the n payload chars are extracted
and the cursor advances by n; otherwise, when i is the last position below n
holding a closing brace, the message is the payload up to and including i and
the cursor advances by i+1 instead of n; and when no closing brace occurs in
the n chars, the originally declared length n is used. -/
theorem c2_frame_length_recovery (buf : List Char) (n he : Nat)
    (hhdr : parseHeader buf = some (n, he))
    (hlen : he + n ≤ buf.length) :
    (((buf.drop he).take n).get? (n - 1) = some '}' →
      handleDataExtract buf = some ((buf.drop he).take n, buf.drop (he + n))) ∧
    (((buf.drop he).take n).get? (n - 1) ≠ some '}' →
      ∀ i, i < n → ((buf.drop he).take n).get? i = some '}' →
        (∀ j, i < j → j < n → ((buf.drop he).take n).get? j ≠ some '}') →
        handleDataExtract buf =
          some (((buf.drop he).take n).take (i + 1), buf.drop (he + (i + 1)))) ∧
    (((buf.drop he).take n).get? (n - 1) ≠ some '}' → '}' ∉ (buf.drop he).take n →
      handleDataExtract buf = some ((buf.drop he).take n, buf.drop (he + n))) := by
  have hclen : ((buf.drop he).take n).length = n := by
    rw [List.length_take, List.length_drop]
    omega
  have hnotlt : ¬ buf.length < he + n := Nat.not_lt.mpr hlen
  refine ⟨?_, ?_, ?_⟩
  · intro hbr
    simp only [handleDataExtract, hhdr, if_neg hnotlt, hclen, hbr, if_pos]
  · intro hbr i hi1 hi2 hi3
    have hals : lastIdxOf '}' ((buf.drop he).take n) = some i := by
      apply lastIdxOf_eq_of_spec
      · rw [hclen]; exact hi1
      · exact hi2
      · intro j hj1 hj2
        rw [hclen] at hj2
        exact hi3 j hj1 hj2
    simp only [handleDataExtract, hhdr, if_neg hnotlt, hclen, if_neg hbr, hals]
  · intro hbr hnm
    have hals : lastIdxOf '}' ((buf.drop he).take n) = none :=
      (lastIdxOf_none_iff _ _).mpr hnm
    simp only [handleDataExtract, hhdr, if_neg hnotlt, hclen, if_neg hbr, hals]

theorem c2_frame_length_recovery_witness :
    handleDataExtract ("Content-Length: 9\r\n\r\n\x7b\"a\":12\x7dX".toList) =
      some ("\x7b\"a\":12\x7d".toList, "X".toList) := by
  have h := c2_frame_length_recovery ("Content-Length: 9\r\n\r\n\x7b\"a\":12\x7dX".toList)
    9 21 (by decide) (by decide)
  have h2 := h.2.1 (by decide) 7 (by decide) (by decide)
    (by
      intro j hj1 hj2
      have hj : j = 8 := by omega
      subst hj
      decide)
  exact h2.trans (by decide)

theorem jsGet_jsSet_self {κ α : Type} [DecidableEq κ] (l : List (κ × α)) (k : κ) (v : α) :
    jsGet (jsSet l k v) k = some v := by
  induction l with
  | nil => simp [jsSet, jsGet]
  | cons p rest ih =>
    obtain ⟨k1, v1⟩ := p
    by_cases h : k1 = k
    · simp [jsSet, jsGet, h]
    · simp [jsSet, jsGet, h, ih]

/-- A textDocument/publishDiagnostics notification for a uri carrying a
diagnostics array. -/
def publishDiagnosticsMsg (uri : String) (diags : List Json) : LSPMessage :=
  { jsonrpc := "2.0", id := none, method := some "textDocument/publishDiagnostics",
    params := some (Json.obj [("uri", Json.str uri), ("diagnostics", Json.arr diags)]),
    result := none, error := none }

theorem handleMessage_publish (cb : CallbackBehaviour) (st : ClientState) (u : String)
    (ds : List Json) (hu : u ≠ "") :
    handleMessage cb st (publishDiagnosticsMsg u ds) =
      ({ st with documentDiagnostics := jsSet st.documentDiagnostics (Json.str u) ds },
        notifyDiagnosticUpdate cb st.diagnosticSubscribers (Json.str u) ds) := by
  have hu2 : (u != "") = true := by simpa using hu
  simp [handleMessage, handleResponsePart, applyCapabilities, handleNotificationPart,
    publishDiagnosticsMsg, jsonField?, getField, jsGet, truthyO, truthy, hu2]

/-- C5: processing a publishDiagnostics notification for uri u overwrites the
cached entry for u rather than merging: publishing d1 then d2 leaves
getDiagnostics u equal to d2, a single publish leaves exactly its payload, and
getDiagnostics of a uri that was never published is the empty list. -/
theorem c5_diagnostics_replace_not_merge (cb : CallbackBehaviour) (st : ClientState)
    (u : String) (d d1 d2 : List Json) (hu : u ≠ "") :
    getDiagnostics ((handleMessage cb ((handleMessage cb st
        (publishDiagnosticsMsg u d1)).1) (publishDiagnosticsMsg u d2)).1) u = d2 ∧
    getDiagnostics ((handleMessage cb st (publishDiagnosticsMsg u d)).1) u = d ∧
    (jsGet st.documentDiagnostics (Json.str u) = none → getDiagnostics st u = []) := by
  refine ⟨?_, ?_, ?_⟩
  · rw [handleMessage_publish cb st u d1 hu]
    rw [handleMessage_publish cb _ u d2 hu]
    simp [getDiagnostics, jsGet_jsSet_self]
  · rw [handleMessage_publish cb st u d hu]
    simp [getDiagnostics, jsGet_jsSet_self]
  · intro hnone
    simp [getDiagnostics, hnone]

theorem c5_diagnostics_replace_not_merge_witness :
    getDiagnostics ((handleMessage cbNever ((handleMessage cbNever initialClientState
        (publishDiagnosticsMsg "file:///a.hs" [Json.str "a"])).1)
        (publishDiagnosticsMsg "file:///a.hs" [Json.str "b"])).1) "file:///a.hs" =
      [Json.str "b"] ∧
    getDiagnostics initialClientState "file:///a.hs" = [] := by
  have h := c5_diagnostics_replace_not_merge cbNever initialClientState "file:///a.hs"
    [Json.num 1] [Json.str "a"] [Json.str "b"] (by decide)
  exact ⟨h.1, h.2.2 (by decide)⟩

/-- The didOpen notification openDocument writes for a fresh uri. -/
def didOpenMsg (uri languageId text : String) : LSPMessage :=
  { jsonrpc := "2.0", id := none, method := some "textDocument/didOpen",
    params := some (didOpenParams uri languageId text), result := none, error := none }

/-- The didChange notification openDocument writes for an already-open uri. -/
def didChangeMsg (uri : String) (version : Nat) (text : String) : LSPMessage :=
  { jsonrpc := "2.0", id := none, method := some "textDocument/didChange",
    params := some (didChangeParams uri version text), result := none, error := none }

/-- openDocument called repeatedly on the same uri, once per text in the list. -/
def openKTimes (st : ClientState) (uri languageId : String) :
    List String → Except String (ClientState × List (List Event))
  | [] => Except.ok (st, [])
  | t :: rest =>
    match openDocument st uri t languageId with
    | Except.error e => Except.error e
    | Except.ok stev =>
      match openKTimes stev.1 uri languageId rest with
      | Except.error e => Except.error e
      | Except.ok r => Except.ok (r.1, stev.2 :: r.2)

/-- The event lists of successive didChange updates starting at a version. -/
def changeEvents (uri : String) : Nat → List String → List (List Event)
  | _, [] => []
  | v, t :: rest => [Event.send (didChangeMsg uri v t)] :: changeEvents uri (v + 1) rest

/-- Whether an event is the write of a didOpen notification. -/
def isDidOpen : Event → Bool
  | Event.send m => m.method == some "textDocument/didOpen"
  | _ => false

theorem openDocument_change (st : ClientState) (uri text languageId : String) (v : Nat)
    (hinit : st.initialized = true) (hstart : st.processStarted = true)
    (hopen : uri ∈ st.openedDocuments) (hv : jsGet st.documentVersions uri = some v)
    (hv0 : v ≠ 0) :
    openDocument st uri text languageId =
      Except.ok ({ st with documentVersions := jsSet st.documentVersions uri (v + 1) },
        [Event.send (didChangeMsg uri (v + 1) text)]) := by
  simp [openDocument, hinit, hopen, hv, jsOrOne, hv0, sendNotification, hstart, didChangeMsg]

theorem openDocument_fresh (st : ClientState) (uri text languageId : String)
    (hinit : st.initialized = true) (hstart : st.processStarted = true)
    (hnot : uri ∉ st.openedDocuments) :
    openDocument st uri text languageId =
      Except.ok ({ st with openedDocuments := st.openedDocuments ++ [uri], documentVersions := jsSet st.documentVersions uri 1 },
        [Event.send (didOpenMsg uri languageId text)]) := by
  simp [openDocument, hinit, hnot, sendNotification, hstart, didOpenMsg, addElem]

theorem openKTimes_change (st : ClientState) (uri languageId : String)
    (texts : List String) (v : Nat)
    (hinit : st.initialized = true) (hstart : st.processStarted = true)
    (hopen : uri ∈ st.openedDocuments) (hv : jsGet st.documentVersions uri = some v)
    (hv0 : v ≠ 0) :
    ∃ st2, openKTimes st uri languageId texts =
        Except.ok (st2, changeEvents uri (v + 1) texts) ∧
      jsGet st2.documentVersions uri = some (v + texts.length) ∧
      st2.openedDocuments = st.openedDocuments ∧
      st2.initialized = true ∧ st2.processStarted = true := by
  induction texts generalizing st v with
  | nil =>
    exact ⟨st, by simp [openKTimes, changeEvents], by simpa using hv, rfl, hinit, hstart⟩
  | cons t rest ih =>
    have hv1 : jsGet (jsSet st.documentVersions uri (v + 1)) uri = some (v + 1) :=
      jsGet_jsSet_self _ _ _
    obtain ⟨st2, h1, h2, h3, h4, h5⟩ := ih { st with documentVersions := jsSet st.documentVersions uri (v + 1) } (v + 1) hinit hstart hopen hv1 (by omega)
    refine ⟨st2, ?_, ?_, by simpa using h3, h4, h5⟩
    · rw [openKTimes, openDocument_change st uri t languageId v hinit hstart hopen hv hv0]
      dsimp only
      rw [h1]
      simp [changeEvents]
    · rw [h2]
      simp only [List.length_cons, Option.some.injEq]
      omega

theorem changeEvents_no_didOpen (uri : String) (v : Nat) (texts : List String) :
    ∀ evs ∈ changeEvents uri v texts, ∀ ev ∈ evs, isDidOpen ev = false := by
  induction texts generalizing v with
  | nil => simp [changeEvents]
  | cons t rest ih =>
    simp only [changeEvents, List.mem_cons]
    rintro evs (rfl | h)
    · simp [isDidOpen, didChangeMsg]
    · exact ih (v + 1) evs h

/-- C4: opening the same uri K times in a row without a close, starting from a
state where it is untracked, leaves the stored version equal to K; the first
call writes a didOpen notification with version 1 and records the document,
the kth call for k of 2..K writes a didChange notification with version k and
the full replacement text, and no call after the first writes a didOpen. -/
theorem c4_document_version_monotonic (st : ClientState) (uri languageId t1 : String)
    (rest : List String)
    (hinit : st.initialized = true) (hstart : st.processStarted = true)
    (hnot : uri ∉ st.openedDocuments) :
    ∃ st2, openKTimes st uri languageId (t1 :: rest) =
        Except.ok (st2, [Event.send (didOpenMsg uri languageId t1)] ::
          changeEvents uri 2 rest) ∧
      jsGet st2.documentVersions uri = some (rest.length + 1) ∧
      uri ∈ st2.openedDocuments ∧
      (∀ evs ∈ changeEvents uri 2 rest, ∀ ev ∈ evs, isDidOpen ev = false) := by
  have hmem : uri ∈ st.openedDocuments ++ [uri] := by simp
  have hv1 : jsGet (jsSet st.documentVersions uri 1) uri = some 1 := jsGet_jsSet_self _ _ _
  obtain ⟨st2, h1, h2, h3, h4, h5⟩ := openKTimes_change { st with openedDocuments := st.openedDocuments ++ [uri], documentVersions := jsSet st.documentVersions uri 1 } uri languageId rest 1 hinit hstart (by simpa using hmem) hv1 (by omega)
  refine ⟨st2, ?_, ?_, ?_, changeEvents_no_didOpen uri 2 rest⟩
  · rw [openKTimes, openDocument_fresh st uri t1 languageId hinit hstart hnot]
    dsimp only
    rw [h1]
  · rw [h2]
    simp only [Option.some.injEq]
    omega
  · rw [h3]
    simpa using hmem

/-- A session that has been started and initialized, used by witnesses. -/
def readyState : ClientState :=
  { initialClientState with initialized := true, processStarted := true }

theorem c4_document_version_monotonic_witness :
    ∃ st2, openKTimes readyState "file:///d.hs" "haskell" ("a" :: ["b", "c"]) =
        Except.ok (st2, [Event.send (didOpenMsg "file:///d.hs" "haskell" "a")] ::
          changeEvents "file:///d.hs" 2 ["b", "c"]) ∧
      jsGet st2.documentVersions "file:///d.hs" = some 3 ∧
      "file:///d.hs" ∈ st2.openedDocuments := by
  obtain ⟨st2, h1, h2, h3, _⟩ := c4_document_version_monotonic readyState "file:///d.hs"
    "haskell" "a" ["b", "c"] (by decide) (by decide) (by decide)
  exact ⟨st2, h1, by simpa using h2, h3⟩

theorem jsGet_jsSet_ne {κ α : Type} [DecidableEq κ] (l : List (κ × α)) (k k2 : κ) (v : α)
    (h : k2 ≠ k) : jsGet (jsSet l k v) k2 = jsGet l k2 := by
  have h2 : ¬ k = k2 := fun hh => h hh.symm
  induction l with
  | nil => simp [jsSet, jsGet, h2]
  | cons p rest ih =>
    obtain ⟨k1, v1⟩ := p
    by_cases h1 : k1 = k
    · subst h1
      rw [jsSet, if_pos rfl, jsGet, if_neg h2, jsGet, if_neg h2]
    · rw [jsSet, if_neg h1, jsGet, jsGet, ih]

theorem jsGet_eq_none_of_not_mem_keys {κ α : Type} [DecidableEq κ] (l : List (κ × α)) (k : κ)
    (h : k ∉ l.map Prod.fst) : jsGet l k = none := by
  induction l with
  | nil => simp [jsGet]
  | cons p rest ih =>
    obtain ⟨k1, v1⟩ := p
    simp only [List.map_cons, List.mem_cons] at h
    push_neg at h
    have h2 : ¬ k1 = k := fun hh => h.1 hh.symm
    rw [jsGet, if_neg h2, ih h.2]

theorem jsGet_jsDelete_ne {κ α : Type} [DecidableEq κ] (l : List (κ × α)) (k k2 : κ)
    (h : k2 ≠ k) : jsGet (jsDelete l k) k2 = jsGet l k2 := by
  have h2 : ¬ k = k2 := fun hh => h hh.symm
  induction l with
  | nil => simp [jsDelete, jsGet]
  | cons p rest ih =>
    obtain ⟨k1, v1⟩ := p
    by_cases h1 : k1 = k
    · subst h1
      rw [jsDelete, if_pos rfl, jsGet, if_neg h2]
    · rw [jsDelete, if_neg h1, jsGet, jsGet, ih]

theorem jsGet_jsDelete_self {κ α : Type} [DecidableEq κ] (l : List (κ × α)) (k : κ)
    (h : (l.map Prod.fst).Nodup) : jsGet (jsDelete l k) k = none := by
  induction l with
  | nil => simp [jsDelete, jsGet]
  | cons p rest ih =>
    obtain ⟨k1, v1⟩ := p
    simp only [List.map_cons, List.nodup_cons] at h
    by_cases h1 : k1 = k
    · subst h1
      rw [jsDelete, if_pos rfl]
      exact jsGet_eq_none_of_not_mem_keys rest k1 h.1
    · rw [jsDelete, if_neg h1, jsGet, if_neg h1]
      exact ih h.2

theorem mem_keys_jsSet {κ α : Type} [DecidableEq κ] (l : List (κ × α)) (k a : κ) (v : α) :
    a ∈ (jsSet l k v).map Prod.fst ↔ a ∈ l.map Prod.fst ∨ a = k := by
  induction l with
  | nil => simp [jsSet]
  | cons p rest ih =>
    obtain ⟨k1, v1⟩ := p
    by_cases h1 : k1 = k
    · subst h1
      rw [jsSet, if_pos rfl]
      simp only [List.map_cons, List.mem_cons]
      tauto
    · rw [jsSet, if_neg h1]
      simp only [List.map_cons, List.mem_cons, ih]
      tauto

theorem nodup_keys_jsSet {κ α : Type} [DecidableEq κ] (l : List (κ × α)) (k : κ) (v : α)
    (h : (l.map Prod.fst).Nodup) : ((jsSet l k v).map Prod.fst).Nodup := by
  induction l with
  | nil => simp [jsSet]
  | cons p rest ih =>
    obtain ⟨k1, v1⟩ := p
    simp only [List.map_cons, List.nodup_cons] at h
    by_cases h1 : k1 = k
    · subst h1
      rw [jsSet, if_pos rfl]
      simp only [List.map_cons, List.nodup_cons]
      exact ⟨h.1, h.2⟩
    · rw [jsSet, if_neg h1]
      simp only [List.map_cons, List.nodup_cons, mem_keys_jsSet]
      refine ⟨?_, ih h.2⟩
      rintro (hm | rfl)
      · exact h.1 hm
      · exact h1 rfl

theorem jsDelete_sublist {κ α : Type} [DecidableEq κ] (l : List (κ × α)) (k : κ) :
    List.Sublist (jsDelete l k) l := by
  induction l with
  | nil => simp [jsDelete]
  | cons p rest ih =>
    obtain ⟨k1, v1⟩ := p
    by_cases h1 : k1 = k
    · rw [jsDelete, if_pos h1]
      exact List.Sublist.cons _ (List.Sublist.refl _)
    · rw [jsDelete, if_neg h1]
      exact List.Sublist.cons₂ _ ih

theorem jsGet_mem {κ α : Type} [DecidableEq κ] (l : List (κ × α)) (k : κ) (v : α)
    (h : jsGet l k = some v) : (k, v) ∈ l := by
  induction l with
  | nil => simp [jsGet] at h
  | cons p rest ih =>
    obtain ⟨k1, v1⟩ := p
    rw [jsGet] at h
    by_cases h1 : k1 = k
    · rw [if_pos h1] at h
      injection h with h
      subst h1
      subst h
      exact List.mem_cons_self _ _
    · rw [if_neg h1] at h
      exact List.mem_cons_of_mem _ (ih h)

theorem handleMessage_response_found (cb : CallbackBehaviour) (st : ClientState)
    (msg : LSPMessage) (mid : Json) (p : PendingEntry)
    (hid : msg.id = some mid)
    (hre : msg.result.isSome ∨ msg.error.isSome)
    (hfound : jsGet st.responsePromises mid = some p) :
    (handleMessage cb st msg).2 = [Event.settle p.token (outcomeOfMsg msg)] ∧
    (handleMessage cb st msg).1.responsePromises = jsDelete st.responsePromises mid ∧
    (handleMessage cb st msg).1.openedDocuments = st.openedDocuments ∧
    (handleMessage cb st msg).1.documentVersions = st.documentVersions ∧
    (handleMessage cb st msg).1.documentDiagnostics = st.documentDiagnostics ∧
    (handleMessage cb st msg).1.diagnosticSubscribers = st.diagnosticSubscribers ∧
    (handleMessage cb st msg).1.tokenGen = st.tokenGen ∧
    (handleMessage cb st msg).1.nextId = st.nextId := by
  have hre2 : (msg.result.isSome || msg.error.isSome) = true := by
    rcases hre with h | h <;> simp [h]
  cases hcap : truthyO (jsonField? msg.result "capabilities") <;>
    simp [handleMessage, handleResponsePart, applyCapabilities, handleNotificationPart,
      hid, hre2, hfound, hcap]

theorem handleMessage_unknown_id (cb : CallbackBehaviour) (st : ClientState)
    (msg : LSPMessage) (mid : Json)
    (hid : msg.id = some mid)
    (hre : msg.result.isSome ∨ msg.error.isSome)
    (hmiss : jsGet st.responsePromises mid = none) :
    (handleMessage cb st msg).2 = [] ∧
    (handleMessage cb st msg).1.responsePromises = st.responsePromises ∧
    (handleMessage cb st msg).1.openedDocuments = st.openedDocuments ∧
    (handleMessage cb st msg).1.documentVersions = st.documentVersions ∧
    (handleMessage cb st msg).1.documentDiagnostics = st.documentDiagnostics ∧
    (handleMessage cb st msg).1.diagnosticSubscribers = st.diagnosticSubscribers ∧
    (handleMessage cb st msg).1.tokenGen = st.tokenGen ∧
    (handleMessage cb st msg).1.nextId = st.nextId := by
  have hre2 : (msg.result.isSome || msg.error.isSome) = true := by
    rcases hre with h | h <;> simp [h]
  cases hcap : truthyO (jsonField? msg.result "capabilities") <;>
    simp [handleMessage, handleResponsePart, applyCapabilities, handleNotificationPart,
      hid, hre2, hmiss, hcap]

/-- A plain JSON-RPC response carrying a result. -/
def responseMsg (i : Int) (res : Json) : LSPMessage :=
  { jsonrpc := "2.0", id := some (Json.num i), method := none, params := none,
    result := some res, error := none }

/-- C3: a request that never receives a response arms a 10 second timer whose
firing rejects exactly that promise with the typed message naming the method
and removes its pending entry; every other pending request is untouched; and a
second, normal request issued immediately afterwards still resolves with its
own response's result and is cleaned from the pending map. -/
theorem c3_timeout_isolation (st : ClientState) (m1 m2 : String) (p1 p2 : Option Json)
    (v : Json) (cb : CallbackBehaviour)
    (hstart : st.processStarted = true)
    (hnodup : (st.responsePromises.map Prod.fst).Nodup) :
    ∃ st2 : ClientState,
      Event.armTimer (sendRequest st m1 p1).tok requestTimeoutMs ∈ (sendRequest st m1 p1).events ∧
      fireTimeout (sendRequest st m1 p1).st st.nextId (sendRequest st m1 p1).tok m1 =
        (st2, [Event.settle (sendRequest st m1 p1).tok
          (Outcome.rejectedMsg ("Timeout waiting for response to " ++ m1 ++ " request"))]) ∧
      jsGet st2.responsePromises (Json.num (Int.ofNat st.nextId)) = none ∧
      (∀ k, k ≠ Json.num (Int.ofNat st.nextId) →
        jsGet st2.responsePromises k = jsGet st.responsePromises k) ∧
      settlesOf (handleMessage cb (sendRequest st2 m2 p2).st
          (responseMsg (Int.ofNat st2.nextId) v)).2 (sendRequest st2 m2 p2).tok =
        [Outcome.resolved (some v)] ∧
      jsGet (handleMessage cb (sendRequest st2 m2 p2).st
          (responseMsg (Int.ofNat st2.nextId) v)).1.responsePromises
        (Json.num (Int.ofNat st2.nextId)) = none := by
  have hp1 : (sendRequest st m1 p1).st.responsePromises =
      jsSet st.responsePromises (Json.num (Int.ofNat st.nextId)) { token := st.tokenGen, method := m1 } := by
    simp [sendRequest, hstart]
  have hmemA : Event.armTimer (sendRequest st m1 p1).tok requestTimeoutMs ∈ (sendRequest st m1 p1).events := by
    simp [sendRequest, hstart]
  have hfind : jsGet (sendRequest st m1 p1).st.responsePromises (Json.num (Int.ofNat st.nextId)) =
      some { token := st.tokenGen, method := m1 } := by
    rw [hp1]
    exact jsGet_jsSet_self _ _ _
  refine ⟨{ (sendRequest st m1 p1).st with responsePromises := jsDelete (sendRequest st m1 p1).st.responsePromises (Json.num (Int.ofNat st.nextId)) }, hmemA, ?_, ?_, ?_, ?_, ?_⟩
  · rw [fireTimeout, if_pos (by rw [hfind]; rfl)]
  · rw [hp1]
    exact jsGet_jsDelete_self _ _ (nodup_keys_jsSet _ _ _ hnodup)
  · intro k hk
    rw [hp1, jsGet_jsDelete_ne _ _ _ hk, jsGet_jsSet_ne _ _ _ _ hk]
  · have hstart2 : ({ (sendRequest st m1 p1).st with responsePromises := jsDelete (sendRequest st m1 p1).st.responsePromises (Json.num (Int.ofNat st.nextId)) } : ClientState).processStarted = true := by
      simp [sendRequest, hstart]
    have hp2 : (sendRequest { (sendRequest st m1 p1).st with responsePromises := jsDelete (sendRequest st m1 p1).st.responsePromises (Json.num (Int.ofNat st.nextId)) } m2 p2).st.responsePromises = jsSet (jsDelete (sendRequest st m1 p1).st.responsePromises (Json.num (Int.ofNat st.nextId))) (Json.num (Int.ofNat ((sendRequest st m1 p1).st.nextId))) { token := (sendRequest st m1 p1).st.tokenGen, method := m2 } := by
      simp [sendRequest, hstart]
    have hfound2 := jsGet_jsSet_self (jsDelete (sendRequest st m1 p1).st.responsePromises (Json.num (Int.ofNat st.nextId))) (Json.num (Int.ofNat ((sendRequest st m1 p1).st.nextId))) { token := (sendRequest st m1 p1).st.tokenGen, method := m2 }
    obtain ⟨hA, _⟩ := handleMessage_response_found cb _
      (responseMsg (Int.ofNat ((sendRequest st m1 p1).st.nextId)) v)
      (Json.num (Int.ofNat ((sendRequest st m1 p1).st.nextId)))
      { token := (sendRequest st m1 p1).st.tokenGen, method := m2 }
      rfl (Or.inl (by simp [responseMsg])) (by rw [hp2]; exact hfound2)
    rw [hA]
    have htok2 : (sendRequest { (sendRequest st m1 p1).st with responsePromises := jsDelete (sendRequest st m1 p1).st.responsePromises (Json.num (Int.ofNat st.nextId)) } m2 p2).tok = (sendRequest st m1 p1).st.tokenGen := by
      simp [sendRequest, hstart]
    rw [htok2]
    simp [settlesOf, outcomeOfMsg, responseMsg]
  · have hp2 : (sendRequest { (sendRequest st m1 p1).st with responsePromises := jsDelete (sendRequest st m1 p1).st.responsePromises (Json.num (Int.ofNat st.nextId)) } m2 p2).st.responsePromises = jsSet (jsDelete (sendRequest st m1 p1).st.responsePromises (Json.num (Int.ofNat st.nextId))) (Json.num (Int.ofNat ((sendRequest st m1 p1).st.nextId))) { token := (sendRequest st m1 p1).st.tokenGen, method := m2 } := by
      simp [sendRequest, hstart]
    have hfound2 := jsGet_jsSet_self (jsDelete (sendRequest st m1 p1).st.responsePromises (Json.num (Int.ofNat st.nextId))) (Json.num (Int.ofNat ((sendRequest st m1 p1).st.nextId))) { token := (sendRequest st m1 p1).st.tokenGen, method := m2 }
    obtain ⟨hA, hB, _⟩ := handleMessage_response_found cb _
      (responseMsg (Int.ofNat ((sendRequest st m1 p1).st.nextId)) v)
      (Json.num (Int.ofNat ((sendRequest st m1 p1).st.nextId)))
      { token := (sendRequest st m1 p1).st.tokenGen, method := m2 }
      rfl (Or.inl (by simp [responseMsg])) (by rw [hp2]; exact hfound2)
    rw [hB, hp2]
    apply jsGet_jsDelete_self
    apply nodup_keys_jsSet
    rw [hp1]
    exact List.Nodup.sublist (List.Sublist.map _ (jsDelete_sublist _ _)) (nodup_keys_jsSet _ _ _ hnodup)

theorem c3_timeout_isolation_witness :
    ∃ st2 : ClientState,
      Event.armTimer (sendRequest readyState "textDocument/hover" none).tok requestTimeoutMs ∈
        (sendRequest readyState "textDocument/hover" none).events ∧
      fireTimeout (sendRequest readyState "textDocument/hover" none).st readyState.nextId
          (sendRequest readyState "textDocument/hover" none).tok "textDocument/hover" =
        (st2, [Event.settle (sendRequest readyState "textDocument/hover" none).tok
          (Outcome.rejectedMsg ("Timeout waiting for response to " ++ "textDocument/hover" ++ " request"))]) ∧
      jsGet st2.responsePromises (Json.num (Int.ofNat readyState.nextId)) = none ∧
      (∀ k, k ≠ Json.num (Int.ofNat readyState.nextId) →
        jsGet st2.responsePromises k = jsGet readyState.responsePromises k) ∧
      settlesOf (handleMessage cbNever (sendRequest st2 "textDocument/completion" none).st
          (responseMsg (Int.ofNat st2.nextId) (Json.str "ok"))).2
          (sendRequest st2 "textDocument/completion" none).tok =
        [Outcome.resolved (some (Json.str "ok"))] ∧
      jsGet (handleMessage cbNever (sendRequest st2 "textDocument/completion" none).st
          (responseMsg (Int.ofNat st2.nextId) (Json.str "ok"))).1.responsePromises
        (Json.num (Int.ofNat st2.nextId)) = none :=
  c3_timeout_isolation readyState "textDocument/hover" "textDocument/completion" none none
    (Json.str "ok") cbNever rfl (by simp [readyState, initialClientState])

theorem notifyDiagnosticUpdate_all (cb : CallbackBehaviour) (subs : List Nat) (u : Json)
    (ds : List Json) :
    notifyDiagnosticUpdate cb subs u ds = subs.map (fun s => Event.notify s u ds) := by
  induction subs with
  | nil => simp [notifyDiagnosticUpdate]
  | cons s rest ih =>
    rw [notifyDiagnosticUpdate]
    cases hr : runCallback cb s u ds <;> simp [ih]

theorem replayLoop_all (cb : CallbackBehaviour) (tok : Nat) (entries : List (Json × List Json))
    (hok : ∀ p ∈ entries, cb tok p.1 p.2 = false) :
    replayLoop cb tok entries = (entries.map (fun p => Event.notify tok p.1 p.2), none) := by
  induction entries with
  | nil => simp [replayLoop]
  | cons p rest ih =>
    obtain ⟨u, ds⟩ := p
    have hp : cb tok u ds = false := hok (u, ds) (List.mem_cons_self _ _)
    rw [replayLoop]
    have hrc : runCallback cb tok u ds = Except.ok () := by
      simp [runCallback, hp]
    rw [hrc]
    simp only []
    rw [ih (fun q hq => hok q (List.mem_cons_of_mem _ hq))]
    simp

theorem handleResponsePart_subs_eq (st : ClientState) (msg : LSPMessage) :
    (handleResponsePart st msg).1.diagnosticSubscribers = st.diagnosticSubscribers := by
  unfold handleResponsePart
  split
  · split
    · split <;> rfl
    · rfl
  · rfl

theorem applyCapabilities_subs_eq (st : ClientState) (msg : LSPMessage) :
    (applyCapabilities st msg).diagnosticSubscribers = st.diagnosticSubscribers := by
  unfold applyCapabilities
  split <;> rfl

theorem handleNotificationPart_subs_eq (cb : CallbackBehaviour) (st : ClientState)
    (msg : LSPMessage) :
    (handleNotificationPart cb st msg).1.diagnosticSubscribers = st.diagnosticSubscribers := by
  unfold handleNotificationPart
  split
  · split
    · split
      · split <;> rfl
      · rfl
    · rfl
  · rfl

theorem handleMessage_subs_eq (cb : CallbackBehaviour) (st : ClientState) (msg : LSPMessage) :
    (handleMessage cb st msg).1.diagnosticSubscribers = st.diagnosticSubscribers := by
  unfold handleMessage
  rw [handleNotificationPart_subs_eq, applyCapabilities_subs_eq, handleResponsePart_subs_eq]

theorem handleNotificationPart_no_settle (cb : CallbackBehaviour) (st : ClientState)
    (msg : LSPMessage) (tok : Nat) (o : Outcome) :
    Event.settle tok o ∉ (handleNotificationPart cb st msg).2 := by
  unfold handleNotificationPart
  split
  · split
    · split
      · split
        · simp [notifyDiagnosticUpdate_all]
        · simp
      · simp
    · simp
  · simp

theorem handleResponsePart_settle_mem (st : ClientState) (msg : LSPMessage)
    (tok : Nat) (o : Outcome)
    (h : Event.settle tok o ∈ (handleResponsePart st msg).2) :
    ∃ q, q ∈ st.responsePromises ∧ (Prod.snd q).token = tok := by
  unfold handleResponsePart at h
  rcases hmid : msg.id with _ | mid
  · simp only [hmid] at h
    simp at h
  · simp only [hmid] at h
    by_cases hre : (msg.result.isSome || msg.error.isSome) = true
    · rw [if_pos hre] at h
      cases hget : jsGet st.responsePromises mid with
      | none =>
        rw [hget] at h
        simp at h
      | some p =>
        rw [hget] at h
        simp only [List.mem_singleton] at h
        injection h with h1 h2
        exact ⟨(mid, p), jsGet_mem _ _ _ hget, h1.symm⟩
    · rw [if_neg hre] at h
      simp at h

theorem handleMessage_settle_mem (cb : CallbackBehaviour) (st : ClientState)
    (msg : LSPMessage) (tok : Nat) (o : Outcome)
    (h : Event.settle tok o ∈ (handleMessage cb st msg).2) :
    ∃ q, q ∈ st.responsePromises ∧ (Prod.snd q).token = tok := by
  unfold handleMessage at h
  simp only [List.mem_append] at h
  rcases h with h | h
  · exact handleResponsePart_settle_mem st msg tok o h
  · exact absurd h (handleNotificationPart_no_settle cb _ msg tok o)

theorem handleResponsePart_no_notify (st : ClientState) (msg : LSPMessage)
    (s : Nat) (u2 : Json) (ds2 : List Json) :
    Event.notify s u2 ds2 ∉ (handleResponsePart st msg).2 := by
  unfold handleResponsePart
  split
  · split
    · split <;> simp
    · simp
  · simp

theorem handleNotificationPart_notify_mem (cb : CallbackBehaviour) (st : ClientState)
    (msg : LSPMessage) (s : Nat) (u2 : Json) (ds2 : List Json)
    (h : Event.notify s u2 ds2 ∈ (handleNotificationPart cb st msg).2) :
    s ∈ st.diagnosticSubscribers := by
  unfold handleNotificationPart at h
  split at h
  · split at h
    · split at h
      · split at h
        · simp only [notifyDiagnosticUpdate_all, List.mem_map] at h
          obtain ⟨a, ha, heq⟩ := h
          injection heq with h1 h2 h3
          subst h1
          exact ha
        · simp at h
      · simp at h
    · simp at h
  · simp at h

theorem handleMessage_notify_mem (cb : CallbackBehaviour) (st : ClientState)
    (msg : LSPMessage) (s : Nat) (u2 : Json) (ds2 : List Json)
    (h : Event.notify s u2 ds2 ∈ (handleMessage cb st msg).2) :
    s ∈ st.diagnosticSubscribers := by
  unfold handleMessage at h
  simp only [List.mem_append] at h
  rcases h with h | h
  · exact absurd h (handleResponsePart_no_notify st msg s u2 ds2)
  · have h2 := handleNotificationPart_notify_mem cb _ msg s u2 ds2 h
    rw [applyCapabilities_subs_eq, handleResponsePart_subs_eq] at h2
    exact h2

theorem processResponses_no_notify (cb : CallbackBehaviour) (st : ClientState)
    (ms : List LSPMessage) (tok : Nat) (hnot : tok ∉ st.diagnosticSubscribers) :
    ∀ ev ∈ (processResponses cb st ms).2, ∀ u2 ds2, ev ≠ Event.notify tok u2 ds2 := by
  induction ms generalizing st with
  | nil => simp [processResponses]
  | cons m rest ih =>
    intro ev hev u2 ds2
    rw [processResponses] at hev
    simp only [List.mem_append] at hev
    rcases hev with h | h
    · rintro rfl
      exact hnot (handleMessage_notify_mem cb st m tok u2 ds2 h)
    · have hnot2 : tok ∉ (handleMessage cb st m).1.diagnosticSubscribers := by
        rw [handleMessage_subs_eq]
        exact hnot
      exact ih (handleMessage cb st m).1 hnot2 ev h u2 ds2

/-- C6: subscribeToDiagnostics registers the callback and synchronously,
before returning, replays the cache to the new subscriber with one call per
cached entry in cache order; a fresh publish invokes every currently
registered subscriber in registration order, regardless of which uri it
concerns and of whether any callback throws; and a callback removed by
unsubscribeFromDiagnostics receives no invocation from any later message
processing. -/
theorem c6_subscription_bus (cb cb2 : CallbackBehaviour) (st : ClientState) (tok : Nat)
    (u : String) (ds : List Json) (ms : List LSPMessage)
    (hu : u ≠ "")
    (hok : ∀ p ∈ st.documentDiagnostics, cb tok p.1 p.2 = false)
    (hnodup : st.diagnosticSubscribers.Nodup) :
    subscribeToDiagnostics cb st tok =
      ({ st with diagnosticSubscribers := addElem st.diagnosticSubscribers tok },
        st.documentDiagnostics.map (fun p => Event.notify tok p.1 p.2), none) ∧
    (handleMessage cb st (publishDiagnosticsMsg u ds)).2 =
      st.diagnosticSubscribers.map (fun s => Event.notify s (Json.str u) ds) ∧
    (∀ ev ∈ (processResponses cb2 (unsubscribeFromDiagnostics st tok) ms).2,
      ∀ u2 ds2, ev ≠ Event.notify tok u2 ds2) := by
  refine ⟨?_, ?_, ?_⟩
  · simp only [subscribeToDiagnostics, replayLoop_all cb tok st.documentDiagnostics hok]
  · rw [handleMessage_publish cb st u ds hu]
    exact notifyDiagnosticUpdate_all cb st.diagnosticSubscribers (Json.str u) ds
  · apply processResponses_no_notify
    exact List.Nodup.not_mem_erase hnodup

/-- A ready session with one cached diagnostics entry and two subscribers. -/
def busStateW : ClientState :=
  { readyState with documentDiagnostics := [(Json.str "file:///a.hs", [Json.num 1])], diagnosticSubscribers := [5, 7] }

theorem c6_subscription_bus_witness :
    subscribeToDiagnostics cbNever busStateW 9 =
      ({ busStateW with diagnosticSubscribers := [5, 7, 9] },
        [Event.notify 9 (Json.str "file:///a.hs") [Json.num 1]], none) ∧
    (handleMessage cbNever busStateW (publishDiagnosticsMsg "file:///b.hs" [Json.num 2])).2 =
      [Event.notify 5 (Json.str "file:///b.hs") [Json.num 2],
       Event.notify 7 (Json.str "file:///b.hs") [Json.num 2]] := by
  have h := c6_subscription_bus cbNever cbNever busStateW 9 "file:///b.hs" [Json.num 2] []
    (by decide) (by decide) (by decide)
  exact ⟨h.1, h.2.1⟩

theorem settlesOf_append (a b : List Event) (tok : Nat) :
    settlesOf (a ++ b) tok = settlesOf a tok ++ settlesOf b tok := by
  induction a with
  | nil => simp [settlesOf]
  | cons ev rest ih =>
    cases ev with
    | settle t o =>
      by_cases ht : t = tok
      · simp [settlesOf, ht, ih]
      · simp [settlesOf, ht, ih]
    | send m => simp [settlesOf, ih]
    | notify s u ds => simp [settlesOf, ih]
    | armTimer t d => simp [settlesOf, ih]

theorem settlesOf_eq_nil_of_no_settle (evs : List Event) (tok : Nat)
    (h : ∀ o, Event.settle tok o ∉ evs) : settlesOf evs tok = [] := by
  induction evs with
  | nil => simp [settlesOf]
  | cons ev rest ih =>
    have hrest : ∀ o, Event.settle tok o ∉ rest :=
      fun o hm => h o (List.mem_cons_of_mem _ hm)
    cases ev with
    | settle t o =>
      by_cases ht : t = tok
      · subst ht
        exact absurd (List.mem_cons_self _ _) (h o)
      · simp [settlesOf, ht, ih hrest]
    | send m => simp [settlesOf, ih hrest]
    | notify s u ds => simp [settlesOf, ih hrest]
    | armTimer t d => simp [settlesOf, ih hrest]

theorem jsGet_isSome_of_mem {κ α : Type} [DecidableEq κ] (l : List (κ × α)) (k : κ) (v : α)
    (h : (k, v) ∈ l) : (jsGet l k).isSome := by
  induction l with
  | nil => simp at h
  | cons p rest ih =>
    obtain ⟨k1, v1⟩ := p
    rcases List.mem_cons.mp h with heq | hm
    · injection heq with h1 h2
      subst h1
      simp [jsGet]
    · rw [jsGet]
      by_cases h1 : k1 = k
      · simp [h1]
      · simp [h1, ih hm]

theorem applyCapabilities_pend_eq (st : ClientState) (msg : LSPMessage) :
    (applyCapabilities st msg).responsePromises = st.responsePromises := by
  unfold applyCapabilities
  split <;> rfl

theorem handleNotificationPart_pend_eq (cb : CallbackBehaviour) (st : ClientState)
    (msg : LSPMessage) :
    (handleNotificationPart cb st msg).1.responsePromises = st.responsePromises := by
  unfold handleNotificationPart
  split
  · split
    · split
      · split <;> rfl
      · rfl
    · rfl
  · rfl

theorem handleNotificationPart_id_some (cb : CallbackBehaviour) (st : ClientState)
    (msg : LSPMessage) (mid : Json) (hid : msg.id = some mid) :
    handleNotificationPart cb st msg = (st, []) := by
  unfold handleNotificationPart
  rw [if_neg]
  simp [hid]

theorem handleResponsePart_cases (st : ClientState) (msg : LSPMessage) :
    handleResponsePart st msg = (st, []) ∨
    ∃ mid p, msg.id = some mid ∧ (msg.result.isSome || msg.error.isSome) = true ∧
      jsGet st.responsePromises mid = some p ∧
      handleResponsePart st msg =
        ({ st with responsePromises := jsDelete st.responsePromises mid },
          [Event.settle p.token (outcomeOfMsg msg)]) := by
  unfold handleResponsePart
  rcases hmid : msg.id with _ | mid
  · exact Or.inl rfl
  · dsimp only
    by_cases hre : (msg.result.isSome || msg.error.isSome) = true
    · rw [if_pos hre]
      cases hget : jsGet st.responsePromises mid with
      | none => exact Or.inl rfl
      | some p => exact Or.inr ⟨mid, p, rfl, hre, hget, rfl⟩
    · rw [if_neg hre]
      exact Or.inl rfl

theorem handleMessage_step_cases (cb : CallbackBehaviour) (st : ClientState)
    (m : LSPMessage) :
    ((handleMessage cb st m).1.responsePromises = st.responsePromises ∧
      ∀ tok o, Event.settle tok o ∉ (handleMessage cb st m).2) ∨
    ∃ mid p, m.id = some mid ∧ (m.result.isSome || m.error.isSome) = true ∧
      jsGet st.responsePromises mid = some p ∧
      (handleMessage cb st m).1.responsePromises = jsDelete st.responsePromises mid ∧
      (handleMessage cb st m).2 = [Event.settle p.token (outcomeOfMsg m)] := by
  rcases handleResponsePart_cases st m with hcase | ⟨mid, p, hid, hre, hget, hcase⟩
  · left
    constructor
    · unfold handleMessage
      rw [handleNotificationPart_pend_eq, applyCapabilities_pend_eq, hcase]
    · intro tok o hmem
      unfold handleMessage at hmem
      rw [hcase] at hmem
      simp only [List.mem_append] at hmem
      rcases hmem with hmem | hmem
      · simp at hmem
      · exact handleNotificationPart_no_settle cb _ m tok o hmem
  · right
    refine ⟨mid, p, hid, hre, hget, ?_, ?_⟩
    · unfold handleMessage
      rw [handleNotificationPart_pend_eq, applyCapabilities_pend_eq, hcase]
    · unfold handleMessage
      dsimp only
      rw [hcase]
      dsimp only
      rw [handleNotificationPart_id_some cb _ m mid hid]
      simp

theorem handleMessage_pend_sub (cb : CallbackBehaviour) (st : ClientState) (m : LSPMessage) :
    ∀ q ∈ (handleMessage cb st m).1.responsePromises, q ∈ st.responsePromises := by
  intro q hq
  rcases handleMessage_step_cases cb st m with ⟨hpend, _⟩ | ⟨mid, p, _, _, _, hpend, _⟩
  · rw [hpend] at hq
    exact hq
  · rw [hpend] at hq
    exact (jsDelete_sublist _ _).subset hq

theorem processResponses_no_token (cb : CallbackBehaviour) (st : ClientState)
    (ms : List LSPMessage) (tok : Nat)
    (h : ∀ q ∈ st.responsePromises, (Prod.snd q).token ≠ tok) :
    settlesOf (processResponses cb st ms).2 tok = [] := by
  induction ms generalizing st with
  | nil => simp [processResponses, settlesOf]
  | cons m rest ih =>
    rw [processResponses]
    dsimp only
    rw [settlesOf_append]
    have h1 : settlesOf (handleMessage cb st m).2 tok = [] := by
      apply settlesOf_eq_nil_of_no_settle
      intro o hmem
      obtain ⟨q, hq, htok⟩ := handleMessage_settle_mem cb st m tok o hmem
      exact h q hq htok
    have h2 : ∀ q ∈ (handleMessage cb st m).1.responsePromises, (Prod.snd q).token ≠ tok :=
      fun q hq => h q (handleMessage_pend_sub cb st m q hq)
    rw [h1, ih _ h2]
    rfl

/-- Whether a message is the response carrying the given request id. -/
def respondsTo (m : LSPMessage) (mid : Json) : Bool :=
  (m.id == some mid) && (m.result.isSome || m.error.isSome)

theorem processResponses_correlation (cb : CallbackBehaviour) (st : ClientState)
    (ms : List LSPMessage) (i : Json) (e : PendingEntry)
    (hkeys : (st.responsePromises.map Prod.fst).Nodup)
    (htoks : (st.responsePromises.map (fun p => (Prod.snd p).token)).Nodup)
    (hpend : jsGet st.responsePromises i = some e) :
    (∀ m, ms.find? (fun m2 => respondsTo m2 i) = some m →
      settlesOf (processResponses cb st ms).2 e.token = [outcomeOfMsg m]) ∧
    (ms.find? (fun m2 => respondsTo m2 i) = none →
      settlesOf (processResponses cb st ms).2 e.token = [] ∧
      jsGet (processResponses cb st ms).1.responsePromises i = some e) := by
  induction ms generalizing st with
  | nil =>
    constructor
    · intro m hm
      simp at hm
    · intro _
      exact ⟨by simp [processResponses, settlesOf], by simpa [processResponses] using hpend⟩
  | cons m rest ih =>
    have hmem_ie : (i, e) ∈ st.responsePromises := jsGet_mem _ _ _ hpend
    by_cases hm : respondsTo m i = true
    · have hm2 := hm
      simp only [respondsTo, Bool.and_eq_true, beq_iff_eq] at hm2
      obtain ⟨hid, hre⟩ := hm2
      have hre2 : m.result.isSome ∨ m.error.isSome := by
        rcases Bool.or_eq_true _ _ |>.mp hre with h | h
        · exact Or.inl h
        · exact Or.inr h
      obtain ⟨hev, hpendA, _⟩ := handleMessage_response_found cb st m i e hid hre2 hpend
      have hsettle_rest : settlesOf (processResponses cb (handleMessage cb st m).1 rest).2 e.token = [] := by
        apply processResponses_no_token
        intro q hq htokq
        rw [hpendA] at hq
        have hq2 : q ∈ st.responsePromises := (jsDelete_sublist _ _).subset hq
        have heq : q = (i, e) :=
          List.inj_on_of_nodup_map htoks hq2 hmem_ie htokq
        rw [heq] at hq
        have hsome := jsGet_isSome_of_mem _ i e hq
        rw [jsGet_jsDelete_self _ _ hkeys] at hsome
        simp at hsome
      constructor
      · intro m2 hm2
        rw [@List.find?_cons_of_pos _ (fun m2 => respondsTo m2 i) m rest hm] at hm2
        injection hm2 with hm2
        subst hm2
        rw [processResponses]
        dsimp only
        rw [settlesOf_append, hev, hsettle_rest]
        simp [settlesOf]
      · intro hnone
        rw [@List.find?_cons_of_pos _ (fun m2 => respondsTo m2 i) m rest hm] at hnone
        cases hnone
    · have hfind : (m :: rest).find? (fun m2 => respondsTo m2 i) =
          rest.find? (fun m2 => respondsTo m2 i) :=
        List.find?_cons_of_neg _ (by simpa using hm)
      rcases handleMessage_step_cases cb st m with ⟨hpend_eq, hnos⟩ |
        ⟨mid, p, hid, hre, hget, hpend_eq, hev⟩
      · have hkeys2 : ((handleMessage cb st m).1.responsePromises.map Prod.fst).Nodup := by
          rw [hpend_eq]; exact hkeys
        have htoks2 : ((handleMessage cb st m).1.responsePromises.map
            (fun p => (Prod.snd p).token)).Nodup := by
          rw [hpend_eq]; exact htoks
        have hpend2 : jsGet (handleMessage cb st m).1.responsePromises i = some e := by
          rw [hpend_eq]; exact hpend
        have hstep : settlesOf (handleMessage cb st m).2 e.token = [] :=
          settlesOf_eq_nil_of_no_settle _ _ (fun o => hnos e.token o)
        obtain ⟨ih1, ih2⟩ := ih (handleMessage cb st m).1 hkeys2 htoks2 hpend2
        constructor
        · intro m2 hm2
          rw [hfind] at hm2
          rw [processResponses]
          dsimp only
          rw [settlesOf_append, hstep, ih1 m2 hm2]
          rfl
        · intro hnone
          rw [hfind] at hnone
          obtain ⟨ha, hb⟩ := ih2 hnone
          refine ⟨?_, ?_⟩
          · rw [processResponses]
            dsimp only
            rw [settlesOf_append, hstep, ha]
            rfl
          · rw [processResponses]
            dsimp only
            exact hb
      · have hmidne : mid ≠ i := by
          rintro rfl
          apply hm
          simp [respondsTo, hid, hre]
        have hine : i ≠ mid := fun hh => hmidne hh.symm
        have hmem_mp : (mid, p) ∈ st.responsePromises := jsGet_mem _ _ _ hget
        have hptok : p.token ≠ e.token := by
          intro htokq
          have heq : (mid, p) = (i, e) :=
            List.inj_on_of_nodup_map htoks hmem_mp hmem_ie htokq
          injection heq with h1 h2
          exact hmidne h1
        have hkeys2 : ((handleMessage cb st m).1.responsePromises.map Prod.fst).Nodup := by
          rw [hpend_eq]
          exact List.Nodup.sublist (List.Sublist.map _ (jsDelete_sublist _ _)) hkeys
        have htoks2 : ((handleMessage cb st m).1.responsePromises.map
            (fun p => (Prod.snd p).token)).Nodup := by
          rw [hpend_eq]
          exact List.Nodup.sublist (List.Sublist.map _ (jsDelete_sublist _ _)) htoks
        have hpend2 : jsGet (handleMessage cb st m).1.responsePromises i = some e := by
          rw [hpend_eq, jsGet_jsDelete_ne _ _ _ hine]
          exact hpend
        have hstep : settlesOf (handleMessage cb st m).2 e.token = [] := by
          rw [hev]
          simp [settlesOf, hptok]
        obtain ⟨ih1, ih2⟩ := ih (handleMessage cb st m).1 hkeys2 htoks2 hpend2
        constructor
        · intro m2 hm2
          rw [hfind] at hm2
          rw [processResponses]
          dsimp only
          rw [settlesOf_append, hstep, ih1 m2 hm2]
          rfl
        · intro hnone
          rw [hfind] at hnone
          obtain ⟨ha, hb⟩ := ih2 hnone
          refine ⟨?_, ?_⟩
          · rw [processResponses]
            dsimp only
            rw [settlesOf_append, hstep, ha]
            rfl
          · rw [processResponses]
            dsimp only
            exact hb

/-- A late response whose id matches no pending request but whose result
carries a capabilities object. -/
def c1CapsMsg : LSPMessage :=
  { jsonrpc := "2.0", id := some (Json.num 99), method := none, params := none,
    result := some (Json.obj [("capabilities", Json.obj [("hoverProvider", Json.bool true)])]),
    error := none }

/-- C1 counterexample: a response whose id matches no pending request is not
free of state changes: on a fresh client, whose pending map is empty,
processing a response with id 99 whose result carries a capabilities field
updates the cached server capabilities, refuting the claim that such a
response changes no state. -/
theorem c1_unknown_id_changes_state :
    jsGet initialClientState.responsePromises (Json.num 99) = none ∧
    (handleMessage cbNever initialClientState c1CapsMsg).1.serverCapabilities ≠
      initialClientState.serverCapabilities := by
  decide

/-- C1 (amended): with distinct pending ids and distinct promise identities,
each pending promise settles with exactly the first response in the batch
whose id equals its own, rejecting with the error when the response carries a
truthy error value and resolving with its result otherwise, in whatever order
the responses arrive; a promise whose id is answered by no response in the
batch never settles and stays pending; and a response whose id matches no
pending request settles nothing and leaves the pending map, open documents
and diagnostics cache unchanged, though a truthy capabilities field in its
result still updates the cached server capabilities. -/
theorem c1_request_correlation (cb : CallbackBehaviour) (st : ClientState)
    (ms : List LSPMessage) (i : Json) (e : PendingEntry) (m0 : LSPMessage) (mid0 : Json)
    (hkeys : (st.responsePromises.map Prod.fst).Nodup)
    (htoks : (st.responsePromises.map (fun p => (Prod.snd p).token)).Nodup)
    (hpend : jsGet st.responsePromises i = some e) :
    (∀ m, ms.find? (fun m2 => respondsTo m2 i) = some m →
      settlesOf (processResponses cb st ms).2 e.token = [outcomeOfMsg m]) ∧
    (ms.find? (fun m2 => respondsTo m2 i) = none →
      settlesOf (processResponses cb st ms).2 e.token = [] ∧
      jsGet (processResponses cb st ms).1.responsePromises i = some e) ∧
    (m0.id = some mid0 → (m0.result.isSome ∨ m0.error.isSome) →
      jsGet st.responsePromises mid0 = none →
      (handleMessage cb st m0).2 = [] ∧
      (handleMessage cb st m0).1.responsePromises = st.responsePromises ∧
      (handleMessage cb st m0).1.openedDocuments = st.openedDocuments ∧
      (handleMessage cb st m0).1.documentDiagnostics = st.documentDiagnostics) := by
  obtain ⟨h1, h2⟩ := processResponses_correlation cb st ms i e hkeys htoks hpend
  refine ⟨h1, h2, ?_⟩
  intro hid hre hmiss
  obtain ⟨a, b, c, _, d, _⟩ := handleMessage_unknown_id cb st m0 mid0 hid hre hmiss
  exact ⟨a, b, c, d⟩

/-- A session with two in-flight requests awaiting responses. -/
def stC1W : ClientState :=
  { readyState with responsePromises := [(Json.num 1, { token := 0, method := "textDocument/hover" }), (Json.num 2, { token := 1, method := "textDocument/completion" })], tokenGen := 2, nextId := 3 }

/-- The two responses arriving out of order. -/
def msC1W : List LSPMessage :=
  [responseMsg 2 (Json.str "b"), responseMsg 1 (Json.str "a")]

theorem c1_request_correlation_witness :
    settlesOf (processResponses cbNever stC1W msC1W).2 0 =
      [Outcome.resolved (some (Json.str "a"))] ∧
    (handleMessage cbNever stC1W (responseMsg 3 Json.null)).1.responsePromises =
      stC1W.responsePromises := by
  have h := c1_request_correlation cbNever stC1W msC1W (Json.num 1)
    { token := 0, method := "textDocument/hover" } (responseMsg 3 Json.null) (Json.num 3)
    (by decide) (by decide) (by decide)
  exact ⟨h.1 (responseMsg 1 (Json.str "a")) (by decide),
    (h.2.2 rfl (Or.inl rfl) (by decide)).2.1⟩

/-- A server-reported JSON-RPC error object. -/
def c9ServerError : Json :=
  Json.obj [("code", Json.num (-32603)), ("message", Json.str "boom")]

/-- C9 counterexample: on an initialized session, a server-reported error to
the hover request makes getInfoOnLocation resolve with the empty string, a
server error makes getCompletion resolve with the empty list, and a timeout
makes getCodeActions resolve with the empty list — none of the three
operations surfaces the failure to its caller, refuting the claim. -/
theorem c9_failures_swallowed :
    getInfoOnLocation true (Outcome.rejectedErr c9ServerError) = Except.ok (Json.str "") ∧
    getCompletion true (Outcome.rejectedErr c9ServerError) = Except.ok [] ∧
    getCodeActions true (Outcome.rejectedMsg
      "Timeout waiting for response to textDocument/codeAction request") = Except.ok [] :=
  ⟨rfl, rfl, rfl⟩

/-- C9 (amended): an operation invoked on a not-ready session is rejected
synchronously with the descriptive not-initialized error before any request is
sent; but once the session is ready, a failing specific request — whether a
server-reported error or a timeout — is caught, logged as a warning and
swallowed by getInfoOnLocation, getCompletion and getCodeActions, which
resolve with the empty string and empty lists instead of surfacing the error;
a successful response is parsed into the returned data. -/
theorem c9_error_propagation (outcome : Outcome) (e : Json) (m : String) (r : Option Json) :
    (getInfoOnLocation false outcome = Except.error notInitializedError ∧
     getCompletion false outcome = Except.error notInitializedError ∧
     getCodeActions false outcome = Except.error notInitializedError) ∧
    (getInfoOnLocation true (Outcome.rejectedErr e) = Except.ok (Json.str "") ∧
     getInfoOnLocation true (Outcome.rejectedMsg m) = Except.ok (Json.str "") ∧
     getCompletion true (Outcome.rejectedErr e) = Except.ok [] ∧
     getCompletion true (Outcome.rejectedMsg m) = Except.ok [] ∧
     getCodeActions true (Outcome.rejectedErr e) = Except.ok [] ∧
     getCodeActions true (Outcome.rejectedMsg m) = Except.ok []) ∧
    (getInfoOnLocation true (Outcome.resolved r) = Except.ok (hoverContentsValue r) ∧
     getCompletion true (Outcome.resolved r) = Except.ok (completionItemsOf r) ∧
     getCodeActions true (Outcome.resolved r) = Except.ok (codeActionsOf r)) :=
  ⟨⟨rfl, rfl, rfl⟩, ⟨rfl, rfl, rfl, rfl, rfl, rfl⟩, ⟨rfl, rfl, rfl⟩⟩

theorem sendNotification_state (st : ClientState) (m : String) (p : Option Json) :
    (sendNotification st m p).1 = st := by
  unfold sendNotification
  split <;> rfl

theorem sendNotification_no_settle (st : ClientState) (m : String) (p : Option Json)
    (tok : Nat) (o : Outcome) : Event.settle tok o ∉ (sendNotification st m p).2 := by
  unfold sendNotification
  split <;> simp

theorem handleResponsePart_tokenGen (st : ClientState) (msg : LSPMessage) :
    (handleResponsePart st msg).1.tokenGen = st.tokenGen := by
  unfold handleResponsePart
  split
  · split
    · split <;> rfl
    · rfl
  · rfl

theorem applyCapabilities_tokenGen (st : ClientState) (msg : LSPMessage) :
    (applyCapabilities st msg).tokenGen = st.tokenGen := by
  unfold applyCapabilities
  split <;> rfl

theorem handleNotificationPart_tokenGen (cb : CallbackBehaviour) (st : ClientState)
    (msg : LSPMessage) :
    (handleNotificationPart cb st msg).1.tokenGen = st.tokenGen := by
  unfold handleNotificationPart
  split
  · split
    · split
      · split <;> rfl
      · rfl
    · rfl
  · rfl

theorem handleMessage_tokenGen (cb : CallbackBehaviour) (st : ClientState) (msg : LSPMessage) :
    (handleMessage cb st msg).1.tokenGen = st.tokenGen := by
  unfold handleMessage
  rw [handleNotificationPart_tokenGen, applyCapabilities_tokenGen, handleResponsePart_tokenGen]

theorem mem_jsSet {κ α : Type} [DecidableEq κ] (l : List (κ × α)) (k : κ) (v : α) (q : κ × α)
    (h : q ∈ jsSet l k v) : q ∈ l ∨ q = (k, v) := by
  induction l with
  | nil =>
    simp [jsSet] at h
    exact Or.inr h
  | cons p rest ih =>
    obtain ⟨k1, v1⟩ := p
    by_cases h1 : k1 = k
    · rw [jsSet, if_pos h1] at h
      rcases List.mem_cons.mp h with heq | hm
      · exact Or.inr heq
      · exact Or.inl (List.mem_cons_of_mem _ hm)
    · rw [jsSet, if_neg h1] at h
      rcases List.mem_cons.mp h with heq | hm
      · exact Or.inl (heq ▸ List.mem_cons_self _ _)
      · rcases ih hm with h2 | h2
        · exact Or.inl (List.mem_cons_of_mem _ h2)
        · exact Or.inr h2

theorem replayLoop_no_settle (cb : CallbackBehaviour) (tok : Nat)
    (entries : List (Json × List Json)) (t : Nat) (o : Outcome) :
    Event.settle t o ∉ (replayLoop cb tok entries).1 := by
  induction entries with
  | nil => simp [replayLoop]
  | cons p rest ih =>
    obtain ⟨u, ds⟩ := p
    rw [replayLoop]
    cases runCallback cb tok u ds with
    | ok _ =>
      dsimp only
      intro hm
      rcases List.mem_cons.mp hm with heq | hm2
      · cases heq
      · exact ih hm2
    | error e =>
      dsimp only
      intro hm
      rcases List.mem_cons.mp hm with heq | hm2
      · cases heq
      · simp at hm2

theorem openDocument_preserves (st : ClientState) (uri text lang : String)
    (r : ClientState × List Event) (h : openDocument st uri text lang = Except.ok r) :
    r.1.responsePromises = st.responsePromises ∧ r.1.tokenGen = st.tokenGen ∧
    (∀ tok o, Event.settle tok o ∉ r.2) := by
  unfold openDocument at h
  split at h
  · cases h
  · split at h
    · injection h with h
      subst h
      rw [sendNotification_state]
      exact ⟨rfl, rfl, fun tok o => sendNotification_no_settle st _ _ tok o⟩
    · injection h with h
      subst h
      rw [sendNotification_state]
      exact ⟨rfl, rfl, fun tok o => sendNotification_no_settle st _ _ tok o⟩

theorem closeDocument_preserves (st : ClientState) (uri : String)
    (r : ClientState × List Event) (h : closeDocument st uri = Except.ok r) :
    r.1.responsePromises = st.responsePromises ∧ r.1.tokenGen = st.tokenGen ∧
    (∀ tok o, Event.settle tok o ∉ r.2) := by
  unfold closeDocument at h
  split at h
  · cases h
  · split at h
    · injection h with h
      subst h
      rw [sendNotification_state]
      exact ⟨rfl, rfl, fun tok o => sendNotification_no_settle st _ _ tok o⟩
    · injection h with h
      subst h
      exact ⟨rfl, rfl, by simp⟩

theorem applyAction_no_tok (cb : CallbackBehaviour) (st : ClientState) (a : SessionAct)
    (tok0 : Nat)
    (hno : ∀ q ∈ st.responsePromises, (Prod.snd q).token ≠ tok0)
    (hlt : tok0 < st.tokenGen)
    (hnt : isTimeoutAction a = false) :
    settlesOf (applyAction cb st a).2 tok0 = [] ∧
    (∀ q ∈ (applyAction cb st a).1.responsePromises, (Prod.snd q).token ≠ tok0) ∧
    tok0 < (applyAction cb st a).1.tokenGen := by
  cases a with
  | recv m =>
    refine ⟨?_, ?_, ?_⟩
    · refine settlesOf_eq_nil_of_no_settle _ _ (fun o hmem => ?_)
      obtain ⟨q, hq, htok⟩ := handleMessage_settle_mem cb st m tok0 o hmem
      exact hno q hq htok
    · intro q hq
      exact hno q (handleMessage_pend_sub cb st m q hq)
    · have he : (applyAction cb st (SessionAct.recv m)).1 = (handleMessage cb st m).1 := rfl
      rw [he, handleMessage_tokenGen]
      exact hlt
  | request method params =>
    by_cases hs : st.processStarted = false
    · refine ⟨?_, ?_, ?_⟩
      · have hne : st.tokenGen ≠ tok0 := by omega
        simp [applyAction, sendRequest, hs, settlesOf, hne]
      · intro q hq
        simp only [applyAction, sendRequest, hs, if_pos] at hq
        exact hno q hq
      · simp only [applyAction, sendRequest, hs, if_pos]
        omega
    · have hs2 : st.processStarted = true := by
        revert hs
        cases st.processStarted <;> simp
      refine ⟨?_, ?_, ?_⟩
      · simp [applyAction, sendRequest, hs2, settlesOf]
      · intro q hq
        simp only [applyAction, sendRequest, hs2] at hq
        simp only [Bool.true_eq_false, if_false] at hq
        rcases mem_jsSet _ _ _ q hq with hin | heq
        · exact hno q hin
        · rw [heq]
          intro hcontra
          simp at hcontra
          omega
      · simp [applyAction, sendRequest, hs2]
        omega
  | notif method params =>
    refine ⟨?_, ?_, ?_⟩
    · exact settlesOf_eq_nil_of_no_settle _ _ (fun o => sendNotification_no_settle st method params tok0 o)
    · have he : (applyAction cb st (SessionAct.notif method params)).1 = (sendNotification st method params).1 := rfl
      rw [he, sendNotification_state]
      exact hno
    · have he : (applyAction cb st (SessionAct.notif method params)).1 = (sendNotification st method params).1 := rfl
      rw [he, sendNotification_state]
      exact hlt
  | openDoc uri text lang =>
    cases hod : openDocument st uri text lang with
    | error e =>
      refine ⟨by simp [applyAction, hod, settlesOf], ?_, ?_⟩
      · intro q hq
        simp only [applyAction, hod] at hq
        exact hno q hq
      · simp only [applyAction, hod]
        exact hlt
    | ok r =>
      obtain ⟨hp, hg, hsf⟩ := openDocument_preserves st uri text lang r hod
      have he1 : (applyAction cb st (SessionAct.openDoc uri text lang)).1 = r.1 := by
        simp [applyAction, hod]
      have he2 : (applyAction cb st (SessionAct.openDoc uri text lang)).2 = r.2 := by
        simp [applyAction, hod]
      refine ⟨?_, ?_, ?_⟩
      · rw [he2]
        exact settlesOf_eq_nil_of_no_settle _ _ (fun o => hsf tok0 o)
      · intro q hq
        rw [he1, hp] at hq
        exact hno q hq
      · rw [he1, hg]
        exact hlt
  | closeDoc uri =>
    cases hod : closeDocument st uri with
    | error e =>
      refine ⟨by simp [applyAction, hod, settlesOf], ?_, ?_⟩
      · intro q hq
        simp only [applyAction, hod] at hq
        exact hno q hq
      · simp only [applyAction, hod]
        exact hlt
    | ok r =>
      obtain ⟨hp, hg, hsf⟩ := closeDocument_preserves st uri r hod
      have he1 : (applyAction cb st (SessionAct.closeDoc uri)).1 = r.1 := by
        simp [applyAction, hod]
      have he2 : (applyAction cb st (SessionAct.closeDoc uri)).2 = r.2 := by
        simp [applyAction, hod]
      refine ⟨?_, ?_, ?_⟩
      · rw [he2]
        exact settlesOf_eq_nil_of_no_settle _ _ (fun o => hsf tok0 o)
      · intro q hq
        rw [he1, hp] at hq
        exact hno q hq
      · rw [he1, hg]
        exact hlt
  | subscribeAct tok =>
    refine ⟨?_, ?_, ?_⟩
    · exact settlesOf_eq_nil_of_no_settle _ _
        (fun o => replayLoop_no_settle cb tok st.documentDiagnostics tok0 o)
    · exact fun q hq => hno q hq
    · exact hlt
  | unsubscribeAct tok =>
    refine ⟨by simp [applyAction, settlesOf], fun q hq => hno q hq, hlt⟩
  | fireTO i tok m =>
    simp [isTimeoutAction] at hnt

theorem runActions_no_tok (cb : CallbackBehaviour) (st : ClientState) (acts : List SessionAct)
    (tok0 : Nat)
    (hno : ∀ q ∈ st.responsePromises, (Prod.snd q).token ≠ tok0)
    (hlt : tok0 < st.tokenGen)
    (hall : ∀ a ∈ acts, isTimeoutAction a = false) :
    settlesOf (runActions cb st acts).2 tok0 = [] := by
  induction acts generalizing st with
  | nil => simp [runActions, settlesOf]
  | cons a rest ih =>
    obtain ⟨h1, h2, h3⟩ := applyAction_no_tok cb st a tok0 hno hlt
      (hall a (List.mem_cons_self _ _))
    rw [runActions]
    dsimp only
    rw [settlesOf_append, h1, ih _ h2 h3 (fun a2 ha => hall a2 (List.mem_cons_of_mem _ ha))]
    rfl

theorem initializeRun_success (cb : CallbackBehaviour) (pid : Int) (st : ClientState)
    (root : String) (resp : LSPMessage) (res : Json)
    (hninit : st.initialized = false) (hstart : st.processStarted = true)
    (hpend : st.responsePromises = []) (hnext : st.nextId = 1)
    (hresp : resp.id = some (Json.num 1)) (hrerr : resp.error = none)
    (hrres : resp.result = some res) :
    (initializeRun cb pid st root resp).1.initialized = true ∧
    (initializeRun cb pid st root resp).1.nextId = 2 ∧
    (initializeRun cb pid st root resp).1.responsePromises = [] ∧
    (initializeRun cb pid st root resp).1.openedDocuments = st.openedDocuments ∧
    (initializeRun cb pid st root resp).1.documentDiagnostics = st.documentDiagnostics ∧
    (initializeRun cb pid st root resp).1.diagnosticSubscribers = st.diagnosticSubscribers := by
  have hre2 : resp.result.isSome ∨ resp.error.isSome := Or.inl (by simp [hrres])
  have hr : sendRequest st "initialize" (some (initializeParams pid root)) = { st := { st with nextId := st.nextId + 1, tokenGen := st.tokenGen + 1, responsePromises := [(Json.num (Int.ofNat st.nextId), { token := st.tokenGen, method := "initialize" })] }, tok := st.tokenGen, reqId := some st.nextId, events := [Event.armTimer st.tokenGen requestTimeoutMs, Event.send (requestMessage st.nextId "initialize" (some (initializeParams pid root)))] } := by
    simp [sendRequest, hstart, hpend, jsSet]
  have hfound : jsGet [(Json.num (Int.ofNat st.nextId), ({ token := st.tokenGen, method := "initialize" } : PendingEntry))] (Json.num 1) = some { token := st.tokenGen, method := "initialize" } := by
    rw [hnext]
    simp [jsGet]
  obtain ⟨hev, hpend2, hop2, hdv2, hdd2, hds2, htg2, hni2⟩ := handleMessage_response_found cb
    { st with nextId := st.nextId + 1, tokenGen := st.tokenGen + 1, responsePromises := [(Json.num (Int.ofNat st.nextId), { token := st.tokenGen, method := "initialize" })] }
    resp (Json.num 1) { token := st.tokenGen, method := "initialize" } hresp hre2 hfound
  have houtcome : outcomeOfMsg resp = Outcome.resolved (some res) := by
    simp [outcomeOfMsg, hrerr, hrres]
  unfold initializeRun
  rw [if_neg (by simp [hninit])]
  rw [if_pos hstart]
  dsimp only
  rw [hr]
  dsimp only
  rw [hev, houtcome]
  rw [if_pos (by simp [settlesResolvedTok])]
  rw [sendNotification_state]
  refine ⟨rfl, ?_, ?_, ?_, ?_, ?_⟩
  · show (handleMessage cb _ resp).1.nextId = 2
    rw [hni2]
    simp [hnext]
  · show (handleMessage cb _ resp).1.responsePromises = []
    rw [hpend2]
    rw [hnext]
    simp [jsDelete]
  · show (handleMessage cb _ resp).1.openedDocuments = st.openedDocuments
    rw [hop2]
  · show (handleMessage cb _ resp).1.documentDiagnostics = st.documentDiagnostics
    rw [hdd2]
  · show (handleMessage cb _ resp).1.diagnosticSubscribers = st.diagnosticSubscribers
    rw [hds2]

/-- A not-initialized session carrying residual state, used to exercise restart. -/
def stC8W : ClientState :=
  { readyState with initialized := false, buffer := "junk".toList, nextId := 7, tokenGen := 9, responsePromises := [(Json.num 5, { token := 4, method := "m" })], documentDiagnostics := [(Json.str "file:///u.hs", [Json.num 1])], diagnosticSubscribers := [3] }

/-- The server capabilities object of the restart witness. -/
def c8CapsW : Json :=
  Json.obj [("capabilities", Json.obj [("hoverProvider", Json.bool true)])]

/-- The successful response to the initialize request sent after the reset. -/
def c8RespW : LSPMessage := responseMsg 1 c8CapsW

/-- C8 counterexample: after restart with a root directory completes (the new
initialize response having arrived and been processed), the request-id counter
stands at 2 rather than back at 1, the session is initialized and the cached
capabilities are no longer null — so the claim that after restart() completes
every piece of session state equals its initial value fails on this input. -/
theorem c8_restart_with_root_not_pristine :
    (restartWithRoot cbNever 42 stC8W "/proj" c8RespW).1.nextId = 2 ∧
    (restartWithRoot cbNever 42 stC8W "/proj" c8RespW).1.initialized = true ∧
    (restartWithRoot cbNever 42 stC8W "/proj" c8RespW).1.serverCapabilities ≠ none := by
  refine ⟨by decide, by decide, by decide⟩

/-- C8 (amended): the reset block of restart leaves every piece of session
state at its initial value — after a restart with no root directory the frame
buffer, message queue, pending map, open-document set, version map,
diagnostics cache and subscriber set are empty, the request-id counter is back
to 1, the session is not initialized and the cached capabilities are null;
when a root directory is supplied, initialize then runs with it, so once it
completes the session is initialized and the request-id counter has advanced
to 2 while all collections are still empty; and a promise that was in flight
before the restart can never be settled by any subsequent session activity
other than its own timeout timer, because the discarded map is unreachable. -/
theorem c8_restart_resets_state (cb : CallbackBehaviour) (st : ClientState) (pid : Int)
    (root : String) (resp : LSPMessage) (res : Json) (q0 : Json × PendingEntry)
    (acts : List SessionAct)
    (hwf : WF st) (hq0 : q0 ∈ st.responsePromises)
    (hnoto : ∀ a ∈ acts, isTimeoutAction a = false)
    (hresp : resp.id = some (Json.num 1)) (hrerr : resp.error = none)
    (hrres : resp.result = some res) :
    ((restartNoRoot st).buffer = [] ∧ (restartNoRoot st).messageQueue = [] ∧
     (restartNoRoot st).nextId = 1 ∧ (restartNoRoot st).responsePromises = [] ∧
     (restartNoRoot st).initialized = false ∧ (restartNoRoot st).serverCapabilities = none ∧
     (restartNoRoot st).openedDocuments = [] ∧ (restartNoRoot st).documentVersions = [] ∧
     (restartNoRoot st).documentDiagnostics = [] ∧
     (restartNoRoot st).diagnosticSubscribers = [] ∧
     (restartNoRoot st).processingQueue = false) ∧
    ((restartWithRoot cb pid st root resp).1.initialized = true ∧
     (restartWithRoot cb pid st root resp).1.nextId = 2 ∧
     (restartWithRoot cb pid st root resp).1.responsePromises = [] ∧
     (restartWithRoot cb pid st root resp).1.openedDocuments = [] ∧
     (restartWithRoot cb pid st root resp).1.documentDiagnostics = [] ∧
     (restartWithRoot cb pid st root resp).1.diagnosticSubscribers = []) ∧
    settlesOf (runActions cb (restartNoRoot st) acts).2 (Prod.snd q0).token = [] := by
  refine ⟨⟨rfl, rfl, rfl, rfl, rfl, rfl, rfl, rfl, rfl, rfl, rfl⟩, ?_, ?_⟩
  · obtain ⟨h1, h2, h3, h4, h5, h6⟩ := initializeRun_success cb pid (restartNoRoot st) root
      resp res rfl rfl rfl rfl hresp hrerr hrres
    exact ⟨h1, h2, h3, h4, h5, h6⟩
  · apply runActions_no_tok cb (restartNoRoot st) acts _ (by simp [restartNoRoot, resetSessionState]) _ hnoto
    have := hwf.2.2 q0 hq0
    simpa [restartNoRoot, resetSessionState] using this

/-- Post-restart activity: a fresh request and two late responses. -/
def c8ActsW : List SessionAct :=
  [SessionAct.request "textDocument/hover" none, SessionAct.recv (responseMsg 5 Json.null),
   SessionAct.recv c8RespW]

theorem c8_restart_resets_state_witness :
    (restartNoRoot stC8W).nextId = 1 ∧
    (restartWithRoot cbNever 42 stC8W "/proj" c8RespW).1.nextId = 2 ∧
    settlesOf (runActions cbNever (restartNoRoot stC8W) c8ActsW).2 4 = [] := by
  have h := c8_restart_resets_state cbNever stC8W 42 "/proj" c8RespW c8CapsW
    (Json.num 5, { token := 4, method := "m" }) c8ActsW (by unfold WF; decide) (by decide)
    (by decide) rfl rfl rfl
  exact ⟨h.1.2.2.1, h.2.1.2.1, h.2.2⟩

theorem addElem_mem {α : Type} [DecidableEq α] (l : List α) (a b : α) :
    a ∈ addElem l b ↔ a ∈ l ∨ a = b := by
  unfold addElem
  by_cases h : b ∈ l
  · simp only [if_pos h]
    constructor
    · exact fun hm => Or.inl hm
    · rintro (hm | rfl)
      · exact hm
      · exact h
  · simp [if_neg h]

/-- The runtime invariant of one waitForDiagnostics call: finish runs at most
once, it is what clears the hard timer and unsubscribes, and the unsubscribe
time always equals the resolve time. -/
def WInv (st : WaitState) : Prop :=
  (st.resolvedAt.isSome = true →
    st.hardCleared = true ∧ st.unsubscribedAt.isSome = true ∧ st.stabilisationTimer = none) ∧
  (st.hardCleared = true → st.resolvedAt.isSome = true) ∧
  st.unsubscribedAt = st.resolvedAt

theorem WInv_init (cfg : WaitCfg) : WInv (initWaitState cfg) := by
  unfold WInv initWaitState
  simp

theorem diagnosticListener_resolvedAt (cfg : WaitCfg) (st : WaitState) (t : Nat) (u : String) :
    (diagnosticListener cfg st t u).resolvedAt = st.resolvedAt ∧
    (diagnosticListener cfg st t u).unsubscribedAt = st.unsubscribedAt ∧
    (diagnosticListener cfg st t u).hardCleared = st.hardCleared := by
  unfold diagnosticListener
  split
  · split <;> exact ⟨rfl, rfl, rfl⟩
  · exact ⟨rfl, rfl, rfl⟩

theorem wstep_WInv (cfg : WaitCfg) (st : WaitState) (t : Nat) (e : WEvent)
    (hv : eventValid cfg st t e = true) (hi : WInv st) : WInv (wstep cfg st t e) := by
  obtain ⟨hi1, hi2, hi3⟩ := hi
  cases e with
  | cbEv u =>
    simp only [eventValid, Option.isNone_iff_eq_none] at hv
    have hres : st.resolvedAt = none := by
      rw [← hi3]
      exact hv
    obtain ⟨h1, h2, h3⟩ := diagnosticListener_resolvedAt cfg st t u
    refine ⟨?_, ?_, ?_⟩
    · intro hsome
      rw [wstep] at hsome ⊢
      rw [h1, hres] at hsome
      simp at hsome
    · intro hhc
      rw [wstep] at hhc ⊢
      rw [h3] at hhc
      have := hi2 hhc
      rw [hres] at this
      simp at this
    · rw [wstep, h1, h2, hi3]
  | stabFire =>
    simp only [eventValid, beq_iff_eq] at hv
    have hres : st.resolvedAt = none := by
      cases hr : st.resolvedAt with
      | none => rfl
      | some v =>
        have := (hi1 (by simp [hr])).2.2
        rw [hv] at this
        cases this
    rw [wstep]
    unfold stabFireStep
    dsimp only
    split
    · unfold finishWait WInv
      simp
    · unfold WInv
      refine ⟨?_, ?_, ?_⟩
      · intro hsome
        simp only [] at hsome
        rw [hres] at hsome
        simp at hsome
      · intro hhc
        simp only [] at hhc
        have := hi2 hhc
        rw [hres] at this
        simp at this
      · simp only []
        rw [hi3]
  | hardFire =>
    rw [wstep]
    unfold hardFireStep
    split
    · exact ⟨hi1, hi2, hi3⟩
    · unfold finishWait WInv
      simp

theorem wstep_frozen (cfg : WaitCfg) (st : WaitState) (t : Nat) (e : WEvent)
    (hv : eventValid cfg st t e = true) (hi : WInv st)
    (hr : st.resolvedAt.isSome = true) : wstep cfg st t e = st := by
  obtain ⟨hi1, hi2, hi3⟩ := hi
  obtain ⟨hc, hu, hst⟩ := hi1 hr
  cases e with
  | cbEv u =>
    simp only [eventValid, Option.isNone_iff_eq_none] at hv
    rw [hv] at hu
    simp at hu
  | stabFire =>
    simp only [eventValid, beq_iff_eq] at hv
    rw [hst] at hv
    cases hv
  | hardFire =>
    rw [wstep]
    unfold hardFireStep
    rw [if_pos hc]

theorem wrun_frozen (cfg : WaitCfg) (st : WaitState) (tr : List (Nat × WEvent))
    (hval : wvalid cfg st tr = true) (hi : WInv st)
    (hr : st.resolvedAt.isSome = true) : wrun cfg st tr = st := by
  induction tr with
  | nil => rfl
  | cons p rest ih =>
    obtain ⟨t, e⟩ := p
    rw [wvalid, Bool.and_eq_true] at hval
    have hfz := wstep_frozen cfg st t e hval.1 hi hr
    have hval2 : wvalid cfg st rest = true := by
      have h2 := hval.2
      rw [hfz] at h2
      exact h2
    rw [wrun, hfz]
    exact ih hval2

theorem wrun_WInv (cfg : WaitCfg) (st : WaitState) (tr : List (Nat × WEvent))
    (hval : wvalid cfg st tr = true) (hi : WInv st) : WInv (wrun cfg st tr) := by
  induction tr generalizing st with
  | nil => exact hi
  | cons p rest ih =>
    obtain ⟨t, e⟩ := p
    rw [wvalid, Bool.and_eq_true] at hval
    rw [wrun]
    exact ih _ hval.2 (wstep_WInv cfg st t e hval.1 hi)

theorem wstep_resolve_time (cfg : WaitCfg) (st : WaitState) (t : Nat) (e : WEvent)
    (h0 : st.resolvedAt = none) :
    (wstep cfg st t e).resolvedAt = none ∨ (wstep cfg st t e).resolvedAt = some t := by
  cases e with
  | cbEv u =>
    left
    rw [wstep, (diagnosticListener_resolvedAt cfg st t u).1, h0]
  | stabFire =>
    rw [wstep]
    unfold stabFireStep
    dsimp only
    split
    · right
      rfl
    · left
      exact h0
  | hardFire =>
    rw [wstep]
    unfold hardFireStep
    split
    · left
      exact h0
    · right
      rfl

theorem wrun_resolves (cfg : WaitCfg) (st : WaitState) (tr : List (Nat × WEvent))
    (hval : wvalid cfg st tr = true) (hi : WInv st)
    (hhard : (cfg.t0 + cfg.timeoutMs, WEvent.hardFire) ∈ tr ∨ st.resolvedAt.isSome = true) :
    (wrun cfg st tr).resolvedAt.isSome = true := by
  induction tr generalizing st with
  | nil =>
    rcases hhard with h | h
    · simp at h
    · exact h
  | cons p rest ih =>
    obtain ⟨t, e⟩ := p
    rcases hhard with h | h
    · rw [wvalid, Bool.and_eq_true] at hval
      rw [wrun]
      rcases List.mem_cons.mp h with heq | hm
      · cases heq
        apply ih _ hval.2 (wstep_WInv _ _ _ _ hval.1 hi)
        right
        rw [wstep]
        unfold hardFireStep
        by_cases hc : st.hardCleared = true
        · rw [if_pos hc]
          exact hi.2.1 hc
        · rw [if_neg hc]
          unfold finishWait
          simp
      · exact ih _ hval.2 (wstep_WInv _ _ _ _ hval.1 hi) (Or.inl hm)
    · rw [wrun_frozen cfg st _ hval hi h]
      exact h

theorem wrun_resolved_time_le (cfg : WaitCfg) (st : WaitState) (tr : List (Nat × WEvent))
    (B r : Nat)
    (hval : wvalid cfg st tr = true) (hi : WInv st)
    (htime : ∀ p ∈ tr, Prod.fst p ≤ B) (h0 : st.resolvedAt = none)
    (hres : (wrun cfg st tr).resolvedAt = some r) : r ≤ B := by
  induction tr generalizing st with
  | nil =>
    rw [wrun] at hres
    rw [h0] at hres
    cases hres
  | cons p rest ih =>
    obtain ⟨t, e⟩ := p
    rw [wvalid, Bool.and_eq_true] at hval
    rw [wrun] at hres
    rcases wstep_resolve_time cfg st t e h0 with hn | hsome
    · exact ih _ hval.2 (wstep_WInv _ _ _ _ hval.1 hi)
        (fun p hp => htime p (List.mem_cons_of_mem _ hp)) hn hres
    · have hWI := wstep_WInv cfg st t e hval.1 hi
      have hfz := wrun_frozen cfg _ rest hval.2 hWI (by simp [hsome])
      rw [hfz, hsome] at hres
      injection hres with hres
      subst hres
      exact htime (t, e) (List.mem_cons_self _ _)

theorem wrun_resolution_cases (cfg : WaitCfg) (st : WaitState) (tr : List (Nat × WEvent)) (r : Nat)
    (hval : wvalid cfg st tr = true) (hi : WInv st) (h0 : st.resolvedAt = none)
    (hres : (wrun cfg st tr).resolvedAt = some r) :
    r = cfg.t0 + cfg.timeoutMs ∨
      (allFilesHaveFreshUpdate cfg (wrun cfg st tr) = true ∧
        (wrun cfg st tr).lastUpdateTimestamp + stableDelay ≤ r) := by
  induction tr generalizing st with
  | nil =>
    rw [wrun] at hres
    rw [h0] at hres
    cases hres
  | cons p rest ih =>
    obtain ⟨t, e⟩ := p
    rw [wvalid, Bool.and_eq_true] at hval
    rw [wrun] at hres ⊢
    rcases hps : (wstep cfg st t e).resolvedAt with _ | r2
    · exact ih _ hval.2 (wstep_WInv _ _ _ _ hval.1 hi) hps hres
    · have hWI := wstep_WInv cfg st t e hval.1 hi
      have hfz := wrun_frozen cfg _ rest hval.2 hWI (by simp [hps])
      rw [hfz] at hres ⊢
      cases e with
      | cbEv u =>
        rw [wstep] at hps
        rw [(diagnosticListener_resolvedAt cfg st t u).1, h0] at hps
        cases hps
      | stabFire =>
        rw [wstep] at hres ⊢
        unfold stabFireStep at hres ⊢
        dsimp only at hres ⊢
        by_cases hg : stableDelay ≤ t - st.lastUpdateTimestamp ∧
            allFilesHaveFreshUpdate cfg { st with stabilisationTimer := none } = true
        · rw [if_pos hg] at hres ⊢
          unfold finishWait at hres ⊢
          dsimp only at hres
          injection hres with hres
          subst hres
          right
          refine ⟨hg.2, ?_⟩
          have h1 := hg.1
          simp only [stableDelay] at h1 ⊢
          omega
        · rw [if_neg hg] at hres
          dsimp only at hres
          rw [h0] at hres
          cases hres
      | hardFire =>
        have hvt : t = cfg.t0 + cfg.timeoutMs := by
          have h1 := hval.1
          simp only [eventValid, beq_iff_eq] at h1
          exact h1
        rw [wstep] at hres
        unfold hardFireStep at hres
        by_cases hc : st.hardCleared = true
        · rw [if_pos hc] at hres
          rw [h0] at hres
          cases hres
        · rw [if_neg hc] at hres
          unfold finishWait at hres
          dsimp only at hres
          injection hres with hres
          subst hres
          left
          exact hvt

theorem cbCount_cons_cb (t : Nat) (v u : String) (rest : List (Nat × WEvent)) :
    cbCount ((t, WEvent.cbEv v) :: rest) u = cbCount rest u + (if v = u then 1 else 0) := by
  unfold cbCount
  rw [List.countP_cons]
  by_cases hv : v = u
  · subst hv
    simp
  · rw [if_neg hv]
    have hb : ((t, WEvent.cbEv v).2 == WEvent.cbEv u) = false := by
      simp only [beq_eq_false_iff_ne]
      intro h
      injection h with h
      exact hv h
    rw [hb]
    simp

theorem cbCount_cons_stab (t : Nat) (u : String) (rest : List (Nat × WEvent)) :
    cbCount ((t, WEvent.stabFire) :: rest) u = cbCount rest u := by
  unfold cbCount
  rw [List.countP_cons]
  simp

theorem cbCount_cons_hard (t : Nat) (u : String) (rest : List (Nat × WEvent)) :
    cbCount ((t, WEvent.hardFire) :: rest) u = cbCount rest u := by
  unfold cbCount
  rw [List.countP_cons]
  simp

theorem wrun_gotFresh_budget (cfg : WaitCfg) (st : WaitState) (tr : List (Nat × WEvent))
    (u : String)
    (hcb : cbCount tr u + (if u ∈ st.sawInitialSnapshot then 1 else 0) ≤ 1)
    (hg : u ∉ st.gotFreshUpdate) :
    u ∉ (wrun cfg st tr).gotFreshUpdate := by
  induction tr generalizing st with
  | nil => exact hg
  | cons p rest ih =>
    obtain ⟨t, e⟩ := p
    rw [wrun]
    cases e with
    | cbEv v =>
      rw [cbCount_cons_cb] at hcb
      rw [wstep]
      unfold diagnosticListener
      by_cases hT : v ∈ cfg.targetUris
      · rw [if_pos hT]
        by_cases hS : v ∈ st.sawInitialSnapshot
        · rw [if_pos hS]
          have hne : v ≠ u := by
            intro heq
            subst heq
            rw [if_pos rfl, if_pos hS] at hcb
            omega
          apply ih
          · show cbCount rest u + (if u ∈ st.sawInitialSnapshot then 1 else 0) ≤ 1
            rw [if_neg hne] at hcb
            omega
          · show u ∉ addElem st.gotFreshUpdate v
            rw [addElem_mem]
            rintro (hm | rfl)
            · exact hg hm
            · exact hne rfl
        · rw [if_neg hS]
          apply ih
          · show cbCount rest u + (if u ∈ addElem st.sawInitialSnapshot v then 1 else 0) ≤ 1
            by_cases hv : v = u
            · rw [hv] at hS
              rw [if_pos hv, if_neg hS] at hcb
              rw [if_pos ((addElem_mem _ _ _).mpr (Or.inr hv.symm))]
              omega
            · rw [if_neg hv] at hcb
              have hiff : (u ∈ addElem st.sawInitialSnapshot v) ↔ u ∈ st.sawInitialSnapshot := by
                rw [addElem_mem]
                constructor
                · rintro (hm | rfl)
                  · exact hm
                  · exact absurd rfl hv
                · exact fun hm => Or.inl hm
              by_cases hu : u ∈ st.sawInitialSnapshot
              · rw [if_pos hu] at hcb
                rw [if_pos (hiff.mpr hu)]
                omega
              · rw [if_neg hu] at hcb
                rw [if_neg (fun hm => hu (hiff.mp hm))]
                omega
          · exact hg
      · rw [if_neg hT]
        apply ih
        · show cbCount rest u + (if u ∈ st.sawInitialSnapshot then 1 else 0) ≤ 1
          by_cases hv : v = u
          · rw [if_pos hv] at hcb
            omega
          · rw [if_neg hv] at hcb
            omega
        · exact hg
    | stabFire =>
      rw [cbCount_cons_stab] at hcb
      rw [wstep]
      unfold stabFireStep
      dsimp only
      split
      · apply ih
        · show cbCount rest u + (if u ∈ st.sawInitialSnapshot then 1 else 0) ≤ 1
          exact hcb
        · show u ∉ st.gotFreshUpdate
          exact hg
      · apply ih
        · show cbCount rest u + (if u ∈ st.sawInitialSnapshot then 1 else 0) ≤ 1
          exact hcb
        · show u ∉ st.gotFreshUpdate
          exact hg
    | hardFire =>
      rw [cbCount_cons_hard] at hcb
      rw [wstep]
      unfold hardFireStep
      split
      · exact ih st hcb hg
      · apply ih
        · show cbCount rest u + (if u ∈ st.sawInitialSnapshot then 1 else 0) ≤ 1
          exact hcb
        · show u ∉ st.gotFreshUpdate
          exact hg

/-- C7: over any valid trace of a waitForDiagnostics call whose events all
happen by the hard deadline and in which the hard-timeout callback fires, the
call resolves (never rejects: no event produces a rejection); every resolution
time is at most t0 + timeoutMs; a resolution strictly before the hard deadline
happens only with every target uri freshly updated and at least STABLE_DELAY of
silence since the last fresh update; the temporary listener is unsubscribed
exactly when the call resolves; and a target uri that receives at most one
listener callback (for instance only the initial replay) forces resolution to
happen exactly at the hard timeout — not earlier and not never. -/
theorem c7_stabilization_termination (cfg : WaitCfg) (tr : List (Nat × WEvent)) (u : String)
    (hval : wvalid cfg (initWaitState cfg) tr = true)
    (htime : ∀ p ∈ tr, Prod.fst p ≤ cfg.t0 + cfg.timeoutMs)
    (hhard : (cfg.t0 + cfg.timeoutMs, WEvent.hardFire) ∈ tr) :
    (∃ r, (wfinal cfg tr).resolvedAt = some r) ∧
    (∀ r, (wfinal cfg tr).resolvedAt = some r → r ≤ cfg.t0 + cfg.timeoutMs) ∧
    (∀ r, (wfinal cfg tr).resolvedAt = some r → r ≠ cfg.t0 + cfg.timeoutMs →
      allFilesHaveFreshUpdate cfg (wfinal cfg tr) = true ∧
        (wfinal cfg tr).lastUpdateTimestamp + stableDelay ≤ r) ∧
    (wfinal cfg tr).unsubscribedAt = (wfinal cfg tr).resolvedAt ∧
    (u ∈ cfg.targetUris → cbCount tr u ≤ 1 →
      ∀ r, (wfinal cfg tr).resolvedAt = some r → r = cfg.t0 + cfg.timeoutMs) := by
  have h0 : (initWaitState cfg).resolvedAt = none := rfl
  refine ⟨?_, ?_, ?_, ?_, ?_⟩
  · have hs := wrun_resolves cfg (initWaitState cfg) tr hval (WInv_init cfg) (Or.inl hhard)
    rw [Option.isSome_iff_exists] at hs
    obtain ⟨r, hr⟩ := hs
    exact ⟨r, hr⟩
  · intro r hr
    exact wrun_resolved_time_le cfg (initWaitState cfg) tr (cfg.t0 + cfg.timeoutMs) r
      hval (WInv_init cfg) htime h0 hr
  · intro r hr hne
    rcases wrun_resolution_cases cfg (initWaitState cfg) tr r hval (WInv_init cfg) h0 hr with
      hb | hgood
    · exact absurd hb hne
    · exact hgood
  · exact (wrun_WInv cfg (initWaitState cfg) tr hval (WInv_init cfg)).2.2
  · intro hu hcb r hr
    have hg : u ∉ (wfinal cfg tr).gotFreshUpdate := by
      apply wrun_gotFresh_budget cfg (initWaitState cfg) tr u
      · have hz : (if u ∈ (initWaitState cfg).sawInitialSnapshot then 1 else 0) = 0 := by
          rw [if_neg]
          intro hm
          simp [initWaitState] at hm
        rw [hz]
        omega
      · intro hm
        simp [initWaitState] at hm
    rcases wrun_resolution_cases cfg (initWaitState cfg) tr r hval (WInv_init cfg) h0 hr with
      hb | hgood
    · exact hb
    · exfalso
      have hfresh := hgood.1
      rw [allFilesHaveFreshUpdate, List.all_eq_true] at hfresh
      have hc := hfresh u hu
      have hc2 : u ∈ (wrun cfg (initWaitState cfg) tr).gotFreshUpdate := by
        simpa using hc
      exact hg hc2

def c7CfgW : WaitCfg :=
  { targetUris := ["file:///a.hs"], timeoutMs := 25000, t0 := 0 }

def c7TrW : List (Nat × WEvent) :=
  [(0, WEvent.cbEv "file:///a.hs"), (500, WEvent.stabFire), (25000, WEvent.hardFire)]

theorem c7_stabilization_termination_witness :
    wvalid c7CfgW (initWaitState c7CfgW) c7TrW = true ∧
    (c7CfgW.t0 + c7CfgW.timeoutMs, WEvent.hardFire) ∈ c7TrW ∧
    (wfinal c7CfgW c7TrW).resolvedAt = some 25000 := by
  refine ⟨by decide, by decide, ?_⟩
  have h := c7_stabilization_termination c7CfgW c7TrW "file:///a.hs" (by decide)
    (by decide) (by decide)
  obtain ⟨r, hr⟩ := h.1
  have h5 := h.2.2.2.2 (by decide) (by decide) r hr
  rw [h5] at hr
  exact hr

theorem replayLoop_notify_mem (cb : CallbackBehaviour) (tok s : Nat)
    (l : List (Json × List Json)) (u : Json) (ds : List Json)
    (h : Event.notify s u ds ∈ (replayLoop cb tok l).1) : (u, ds) ∈ l := by
  induction l with
  | nil => simp [replayLoop] at h
  | cons p rest ih =>
    obtain ⟨u1, ds1⟩ := p
    rw [replayLoop] at h
    cases hrc : runCallback cb tok u1 ds1 with
    | ok v =>
      rw [hrc] at h
      dsimp only at h
      rcases List.mem_cons.mp h with heq | hm
      · injection heq with h1 h2 h3
        subst h2
        subst h3
        exact List.mem_cons_self _ _
      · exact List.mem_cons_of_mem _ (ih hm)
    | error e =>
      rw [hrc] at h
      dsimp only at h
      rcases List.mem_cons.mp h with heq | hm
      · injection heq with h1 h2 h3
        subst h2
        subst h3
        exact List.mem_cons_self _ _
      · simp at hm

/-- C10: diagnosticListener classifies the first callback for each target uri
as the initial snapshot purely by counting: it only records the uri in
sawInitialSnapshot and does not mark it fresh, whatever the callback actually
carried; a uri with no cached diagnostics entry at subscribe time receives no
replay callback from subscribeToDiagnostics; consequently a target uri with at
most one callback in the whole trace — in particular one whose single callback
is a genuinely fresh publish — never lets the wait resolve before the hard
timeout: every resolution happens exactly at t0 + timeoutMs. -/
theorem c10_snapshot_by_counting (cfg : WaitCfg) (st : WaitState) (t : Nat) (u : String)
    (cb : CallbackBehaviour) (stc : ClientState) (tok : Nat) (tr : List (Nat × WEvent))
    (hu : u ∈ cfg.targetUris) :
    (u ∉ st.sawInitialSnapshot →
      diagnosticListener cfg st t u
        = { st with sawInitialSnapshot := addElem st.sawInitialSnapshot u }) ∧
    (jsGet stc.documentDiagnostics (Json.str u) = none →
      ∀ ds, Event.notify tok (Json.str u) ds ∉ (subscribeToDiagnostics cb stc tok).2.1) ∧
    (wvalid cfg (initWaitState cfg) tr = true → cbCount tr u ≤ 1 →
      ∀ r, (wfinal cfg tr).resolvedAt = some r → r = cfg.t0 + cfg.timeoutMs) := by
  refine ⟨?_, ?_, ?_⟩
  · intro hsnap
    unfold diagnosticListener
    rw [if_pos hu, if_neg hsnap]
  · intro hnone ds hmem
    unfold subscribeToDiagnostics at hmem
    dsimp only at hmem
    have hm := replayLoop_notify_mem cb tok tok stc.documentDiagnostics (Json.str u) ds hmem
    have hs := jsGet_isSome_of_mem stc.documentDiagnostics (Json.str u) ds hm
    rw [hnone] at hs
    cases hs
  · intro hval hcb r hr
    have hg : u ∉ (wfinal cfg tr).gotFreshUpdate := by
      apply wrun_gotFresh_budget cfg (initWaitState cfg) tr u
      · have hz : (if u ∈ (initWaitState cfg).sawInitialSnapshot then 1 else 0) = 0 := by
          rw [if_neg]
          intro hm
          simp [initWaitState] at hm
        rw [hz]
        omega
      · intro hm
        simp [initWaitState] at hm
    rcases wrun_resolution_cases cfg (initWaitState cfg) tr r hval (WInv_init cfg) rfl hr with
      hb | hgood
    · exact hb
    · exfalso
      have hfresh := hgood.1
      rw [allFilesHaveFreshUpdate, List.all_eq_true] at hfresh
      have hc := hfresh u hu
      have hc2 : u ∈ (wrun cfg (initWaitState cfg) tr).gotFreshUpdate := by
        simpa using hc
      exact hg hc2

def c10CfgW : WaitCfg :=
  { targetUris := ["file:///b.hs"], timeoutMs := 25000, t0 := 0 }

theorem c10_snapshot_by_counting_witness :
    "file:///b.hs" ∈ c10CfgW.targetUris ∧
    "file:///b.hs" ∉ (initWaitState c10CfgW).sawInitialSnapshot ∧
    diagnosticListener c10CfgW (initWaitState c10CfgW) 7 "file:///b.hs"
      = { initWaitState c10CfgW with sawInitialSnapshot := ["file:///b.hs"] } := by
  refine ⟨by decide, by decide, ?_⟩
  have h := (c10_snapshot_by_counting c10CfgW (initWaitState c10CfgW) 7 "file:///b.hs"
    cbNever initialClientState 0 [] (by decide)).1 (by decide)
  rw [h]
  decide
